import Mathlib

/-!
# zorm: query composition and the default CRUD processors

A shallow embedding of `search.go`, `main.go` and `call_back.go`.

* Go pointers (`*DB`, `*search`) are indices into an explicit `Heap`; a nil
  pointer is `none`.  Dereferencing a nil or dangling pointer panics in Go and
  returns `none` here.
* Go slices that the code appends to are slice headers (`arr`, `len`, `cap`)
  over backing arrays kept in the heap, so that two headers can share an
  array exactly as in Go.  `append` writes in place when `len < cap` and
  allocates a fresh array otherwise; the capacity chosen by the Go runtime on
  growth is a parameter `grow`.
* The underlying SQL interface is a `Driver` (its answers) plus a `Trace`
  (the calls made on it so far).  A method call through a nil handle panics:
  the processor making it returns `none` and the call is not made.
-/

namespace Zorm

set_option linter.dupNamespace false

/-! ## Values -/

/-- Dynamic values carried in an `interface{}`.  A boxed `[]interface{}` is the
cons list `vcons x₀ (vcons x₁ … vnil)`. -/
inductive Any where
  | nil
  | bool (b : Bool)
  | int (n : Int)
  | str (s : String)
  | vnil
  | vcons (hd : Any) (tl : Any)
  deriving DecidableEq, Repr

/-- A `[]interface{}` passed where one `interface{}` is expected. -/
def Any.ofList : List Any → Any
  | [] => Any.vnil
  | v :: vs => Any.vcons v (Any.ofList vs)

/-- The test `value != nil && value != ""` of `search.Order`. -/
def Any.present : Any → Bool
  | Any.nil => false
  | Any.str s => s != ""
  | _ => true

/-- The map literal `map[string]interface{}{"query": query, "args": values}`. -/
structure Cond where
  query : Any
  args : List Any
  deriving DecidableEq, Repr

/-- Error values (`error`); a nil error is `none : Option Err`. -/
abbrev Err := String

/-- A field descriptor of a record, as `Fields()` returns it. -/
structure Field where
  Name : String
  DBName : String
  IsPrimaryKey : Bool
  IsNormal : Bool
  Field : Any
  deriving DecidableEq, Repr

/-- A struct value seen through its field descriptors. -/
abbrev Record := List Field

/-- What `DB.Value` / `Scope.Value` holds, by the shape `reflect` finds after
indirection: nil, a struct, a slice of structs (`isPtr = false`) or of pointers
to structs (`isPtr = true`) with the zero value of its element type, or
anything else. -/
inductive Target where
  | nil
  | struct (r : Record)
  | slice (isPtr : Bool) (zero : Record) (elems : List Record)
  | other (v : Any)
  deriving DecidableEq, Repr

/-! ## Slices and the heap -/

/-- One cell of a backing array: the zero value, a condition map, or an
`interface{}` (for `orders`). -/
inductive Elem where
  | zero
  | cond (c : Cond)
  | val (v : Any)
  deriving DecidableEq, Repr

/-- A Go slice header.  `arr` is the backing array; a nil slice and the empty
literal `[]T{}` both have `len = 0` and `cap = 0`, and the code never tells
them apart (it only takes `len`, ranges and appends). -/
structure Slice where
  arr : Nat
  len : Nat
  cap : Nat
  deriving DecidableEq, Repr

/-- The nil slice. -/
def Slice.empty : Slice := { arr := 0, len := 0, cap := 0 }

/-- The handle behind `SQLCommon`: a nil interface, a `*sql.DB`, or a `*sql.Tx`
(which may be a typed nil pointer). -/
inductive SQLHandle where
  | none
  | sqlDB (id : Nat)
  | sqlTx (p : Option Nat)
  deriving DecidableEq, Repr

/-- A handle on which a method can be called: a `*sql.DB`, or a non-nil
`*sql.Tx`.  A method call on the nil interface or through a nil `*sql.Tx`
panics. -/
def SQLHandle.live : SQLHandle → Bool
  | SQLHandle.sqlDB _ => true
  | SQLHandle.sqlTx (some _) => true
  | _ => false

/-- The struct `search` of search.go.  `omits` is kept as the list it denotes:
no code writes through a `[]string`. -/
structure Search where
  db : Option Nat
  whereConditions : Slice
  orConditions : Slice
  notConditions : Slice
  havingConditions : Slice
  joinConditions : Slice
  selects : String
  omits : List String
  orders : Slice
  offset : Any
  limit : Any
  group : String
  tableName : String
  raw : Bool
  Unscoped : Bool
  ignoreOrderQuery : Bool
  deriving DecidableEq, Repr

/-- The struct `DB` of main.go.  `search` and `Callbacks` are pointers; `values`
is the content of the `sync.Map`. -/
structure DB where
  Value : Target
  Error : Option Err
  RowsAffected : Int
  db : SQLHandle
  logger : Option Nat
  logMode : Int
  search : Option Nat
  values : List (String × Any)
  Callbacks : Option Nat
  deriving DecidableEq, Repr

/-- The store: `DB` objects, `search` objects and backing arrays, by address. -/
structure Heap where
  dbs : List DB
  searches : List Search
  arrays : List (List Elem)
  deriving DecidableEq, Repr

/-- The elements a slice header shows: the first `len` cells of its array. -/
def Heap.readSlice (h : Heap) (s : Slice) : List Elem :=
  (h.arrays.getD s.arr []).take s.len

/-- Go's `append(s, e)`: in place when there is spare capacity, into a fresh
array of capacity `max (grow s.cap) (s.len + 1)` otherwise. -/
def Heap.append (grow : Nat → Nat) (h : Heap) (s : Slice) (e : Elem) : Heap × Slice :=
  if s.len < s.cap then
    ({ h with arrays := h.arrays.set s.arr ((h.arrays.getD s.arr []).set s.len e) },
     { s with len := s.len + 1 })
  else
    let newcap := max (grow s.cap) (s.len + 1)
    ({ h with arrays := h.arrays ++
        [h.readSlice s ++ e :: List.replicate (newcap - (s.len + 1)) Elem.zero] },
     { arr := h.arrays.length, len := s.len + 1, cap := newcap })

/-- Store a `search` object at address `p`. -/
def Heap.setSearch (h : Heap) (p : Nat) (s : Search) : Heap :=
  { h with searches := h.searches.set p s }

/-- Store a `DB` object at address `p`. -/
def Heap.setDB (h : Heap) (p : Nat) (d : DB) : Heap :=
  { h with dbs := h.dbs.set p d }

/-! ## search.go

Every method of `*search` mutates the object at `p` and returns `p`. -/

/-- `search.clone`: `clone := *s; return &clone`. -/
def search.clone (h : Heap) (p : Nat) : Option (Heap × Nat) := do
  let s ← h.searches[p]?
  some ({ h with searches := h.searches ++ [s] }, h.searches.length)

/-- `search.Where`. -/
def search.Where (grow : Nat → Nat) (h : Heap) (p : Nat) (query : Any) (values : List Any) :
    Option (Heap × Nat) := do
  let s ← h.searches[p]?
  let (h1, sl) := h.append grow s.whereConditions (Elem.cond { query := query, args := values })
  some (h1.setSearch p { s with whereConditions := sl }, p)

/-- `search.Not`. -/
def search.Not (grow : Nat → Nat) (h : Heap) (p : Nat) (query : Any) (values : List Any) :
    Option (Heap × Nat) := do
  let s ← h.searches[p]?
  let (h1, sl) := h.append grow s.notConditions (Elem.cond { query := query, args := values })
  some (h1.setSearch p { s with notConditions := sl }, p)

/-- `search.Or`. -/
def search.Or (grow : Nat → Nat) (h : Heap) (p : Nat) (query : Any) (values : List Any) :
    Option (Heap × Nat) := do
  let s ← h.searches[p]?
  let (h1, sl) := h.append grow s.orConditions (Elem.cond { query := query, args := values })
  some (h1.setSearch p { s with orConditions := sl }, p)

/-- `search.Order`: the variadic `reorder ...bool` is a list. -/
def search.Order (grow : Nat → Nat) (h : Heap) (p : Nat) (value : Any) (reorder : List Bool) :
    Option (Heap × Nat) := do
  let s ← h.searches[p]?
  let s1 := if reorder.length > 0 && reorder.headD false then { s with orders := Slice.empty } else s
  if value.present then
    let (h1, sl) := h.append grow s1.orders (Elem.val value)
    some (h1.setSearch p { s1 with orders := sl }, p)
  else
    some (h.setSearch p s1, p)

/-- `search.Select`. -/
def search.Select (h : Heap) (p : Nat) (query : String) : Option (Heap × Nat) := do
  let s ← h.searches[p]?
  some (h.setSearch p { s with selects := query }, p)

/-- `search.Omit`. -/
def search.Omit (h : Heap) (p : Nat) (columns : List String) : Option (Heap × Nat) := do
  let s ← h.searches[p]?
  some (h.setSearch p { s with omits := columns }, p)

/-- `search.Limit`. -/
def search.Limit (h : Heap) (p : Nat) (limit : Any) : Option (Heap × Nat) := do
  let s ← h.searches[p]?
  some (h.setSearch p { s with limit := limit }, p)

/-- `search.Offset`. -/
def search.Offset (h : Heap) (p : Nat) (offset : Any) : Option (Heap × Nat) := do
  let s ← h.searches[p]?
  some (h.setSearch p { s with offset := offset }, p)

/-- `search.Group`. -/
def search.Group (h : Heap) (p : Nat) (query : String) : Option (Heap × Nat) := do
  let s ← h.searches[p]?
  some (h.setSearch p { s with group := query }, p)

/-- `search.Having`. -/
def search.Having (grow : Nat → Nat) (h : Heap) (p : Nat) (query : Any) (values : List Any) :
    Option (Heap × Nat) := do
  let s ← h.searches[p]?
  let (h1, sl) := h.append grow s.havingConditions (Elem.cond { query := query, args := values })
  some (h1.setSearch p { s with havingConditions := sl }, p)

/-- `search.Joins`: the `query string` is boxed into the map. -/
def search.Joins (grow : Nat → Nat) (h : Heap) (p : Nat) (query : String) (values : List Any) :
    Option (Heap × Nat) := do
  let s ← h.searches[p]?
  let (h1, sl) := h.append grow s.joinConditions
    (Elem.cond { query := Any.str query, args := values })
  some (h1.setSearch p { s with joinConditions := sl }, p)

/-- `search.Table`. -/
def search.Table (h : Heap) (p : Nat) (name : String) : Option (Heap × Nat) := do
  let s ← h.searches[p]?
  some (h.setSearch p { s with tableName := name }, p)

/-- `search.unscoped`. -/
def search.unscoped (h : Heap) (p : Nat) : Option (Heap × Nat) := do
  let s ← h.searches[p]?
  some (h.setSearch p { s with Unscoped := true }, p)

/-- `search.Raw`. -/
def search.Raw (h : Heap) (p : Nat) (b : Bool) : Option (Heap × Nat) := do
  let s ← h.searches[p]?
  some (h.setSearch p { s with raw := b }, p)

/-- The expression `x.db` for a `*search` `x`. -/
def search.dbOf (h : Heap) (p : Nat) : Option Nat := do
  let s ← h.searches[p]?
  s.db

/-! ## main.go: clone and the fluent surface -/

/-- The literal `&search{limit: -1, offset: -1}`. -/
def search.fresh : Search :=
  { db := none, whereConditions := Slice.empty, orConditions := Slice.empty,
    notConditions := Slice.empty, havingConditions := Slice.empty,
    joinConditions := Slice.empty, selects := "", omits := [], orders := Slice.empty,
    offset := Any.int (-1), limit := Any.int (-1), group := "", tableName := "",
    raw := false, Unscoped := false, ignoreOrderQuery := false }

/-- `DB.clone`: a new `DB` carrying `db`, `Error`, `logger`, `Value`, `Callbacks`
and a copy of `values`; a new `search` (fresh or cloned) whose `db` points to
the new `DB`.  Returns the new `DB` and its `search`. -/
def DB.clone (h : Heap) (s : Nat) : Option (Heap × Nat × Nat) := do
  let d ← h.dbs[s]?
  let c := h.dbs.length
  let db : DB :=
    { Value := d.Value, Error := d.Error, RowsAffected := 0, db := d.db, logger := d.logger,
      logMode := 0, search := none, values := d.values, Callbacks := d.Callbacks }
  let h1 : Heap := { h with dbs := h.dbs ++ [db] }
  let (h2, q) ← (match d.search with
    | none => some ({ h1 with searches := h1.searches ++ [search.fresh] }, h1.searches.length)
    | some p => search.clone h1 p)
  let sr ← h2.searches[q]?
  let h3 := (h2.setDB c { db with search := some q }).setSearch q { sr with db := some c }
  some (h3, c, q)

/-- `DB.Where`. -/
def DB.Where (grow : Nat → Nat) (h : Heap) (s : Nat) (query : Any) (args : List Any) :
    Option (Heap × Nat) := do
  let (h1, _, q) ← DB.clone h s
  let (h2, q2) ← search.Where grow h1 q query args
  let r ← search.dbOf h2 q2
  some (h2, r)

/-- `DB.Or`. -/
def DB.Or (grow : Nat → Nat) (h : Heap) (s : Nat) (query : Any) (args : List Any) :
    Option (Heap × Nat) := do
  let (h1, _, q) ← DB.clone h s
  let (h2, q2) ← search.Or grow h1 q query args
  let r ← search.dbOf h2 q2
  some (h2, r)

/-- `DB.Not`. -/
def DB.Not (grow : Nat → Nat) (h : Heap) (s : Nat) (query : Any) (args : List Any) :
    Option (Heap × Nat) := do
  let (h1, _, q) ← DB.clone h s
  let (h2, q2) ← search.Not grow h1 q query args
  let r ← search.dbOf h2 q2
  some (h2, r)

/-- `DB.Limit`. -/
def DB.Limit (h : Heap) (s : Nat) (limit : Any) : Option (Heap × Nat) := do
  let (h1, _, q) ← DB.clone h s
  let (h2, q2) ← search.Limit h1 q limit
  let r ← search.dbOf h2 q2
  some (h2, r)

/-- `DB.Offset`. -/
def DB.Offset (h : Heap) (s : Nat) (offset : Any) : Option (Heap × Nat) := do
  let (h1, _, q) ← DB.clone h s
  let (h2, q2) ← search.Offset h1 q offset
  let r ← search.dbOf h2 q2
  some (h2, r)

/-- `DB.Order`. -/
def DB.Order (grow : Nat → Nat) (h : Heap) (s : Nat) (value : Any) (reorder : List Bool) :
    Option (Heap × Nat) := do
  let (h1, _, q) ← DB.clone h s
  let (h2, q2) ← search.Order grow h1 q value reorder
  let r ← search.dbOf h2 q2
  some (h2, r)

/-- `DB.Select`. -/
def DB.Select (h : Heap) (s : Nat) (query : String) : Option (Heap × Nat) := do
  let (h1, _, q) ← DB.clone h s
  let (h2, q2) ← search.Select h1 q query
  let r ← search.dbOf h2 q2
  some (h2, r)

/-- `DB.Omit`. -/
def DB.Omit (h : Heap) (s : Nat) (columns : List String) : Option (Heap × Nat) := do
  let (h1, _, q) ← DB.clone h s
  let (h2, q2) ← search.Omit h1 q columns
  let r ← search.dbOf h2 q2
  some (h2, r)

/-- `DB.Table`. -/
def DB.Table (h : Heap) (s : Nat) (tableName : String) : Option (Heap × Nat) := do
  let (h1, _, q) ← DB.clone h s
  let (h2, q2) ← search.Table h1 q tableName
  let r ← search.dbOf h2 q2
  some (h2, r)

/-- `DB.Group`. -/
def DB.Group (h : Heap) (s : Nat) (query : String) : Option (Heap × Nat) := do
  let (h1, _, q) ← DB.clone h s
  let (h2, q2) ← search.Group h1 q query
  let r ← search.dbOf h2 q2
  some (h2, r)

/-- `DB.Having`: `values` is handed on as ONE variadic argument
(`search.Having(query, values)`), so the condition's args is a one-element list
holding the boxed slice. -/
def DB.Having (grow : Nat → Nat) (h : Heap) (s : Nat) (query : Any) (values : List Any) :
    Option (Heap × Nat) := do
  let (h1, _, q) ← DB.clone h s
  let (h2, q2) ← search.Having grow h1 q query [Any.ofList values]
  let r ← search.dbOf h2 q2
  some (h2, r)

/-- `DB.Joins`: as `DB.Having`, `args` is handed on as one argument. -/
def DB.Joins (grow : Nat → Nat) (h : Heap) (s : Nat) (query : String) (args : List Any) :
    Option (Heap × Nat) := do
  let (h1, _, q) ← DB.clone h s
  let (h2, q2) ← search.Joins grow h1 q query [Any.ofList args]
  let r ← search.dbOf h2 q2
  some (h2, r)

/-- `DB.Raw`: `s.clone().search.Raw(true).Where(sql, values...).db`. -/
def DB.Raw (grow : Nat → Nat) (h : Heap) (s : Nat) (sql : String) (values : List Any) :
    Option (Heap × Nat) := do
  let (h1, _, q) ← DB.clone h s
  let (h2, q2) ← search.Raw h1 q true
  let (h3, q3) ← search.Where grow h2 q2 (Any.str sql) values
  let r ← search.dbOf h3 q3
  some (h3, r)

/-- `DB.Unscoped`. -/
def DB.Unscoped (h : Heap) (s : Nat) : Option (Heap × Nat) := do
  let (h1, _, q) ← DB.clone h s
  let (h2, q2) ← search.unscoped h1 q
  let r ← search.dbOf h2 q2
  some (h2, r)

/-! ## Chains of fluent calls -/

/-- One call of a method of `*search`. -/
inductive SOp where
  | Where (query : Any) (values : List Any)
  | Or (query : Any) (values : List Any)
  | Not (query : Any) (values : List Any)
  | Order (value : Any) (reorder : List Bool)
  | Select (query : String)
  | Omit (columns : List String)
  | Limit (limit : Any)
  | Offset (offset : Any)
  | Group (query : String)
  | Having (query : Any) (values : List Any)
  | Joins (query : String) (values : List Any)
  | Table (name : String)
  | unscoped
  | Raw (b : Bool)
  deriving DecidableEq, Repr

/-- Run one method of `*search` on the object at `p`. -/
def search.apply (grow : Nat → Nat) (h : Heap) (p : Nat) : SOp → Option (Heap × Nat)
  | SOp.Where q vs => search.Where grow h p q vs
  | SOp.Or q vs => search.Or grow h p q vs
  | SOp.Not q vs => search.Not grow h p q vs
  | SOp.Order v r => search.Order grow h p v r
  | SOp.Select q => search.Select h p q
  | SOp.Omit cs => search.Omit h p cs
  | SOp.Limit l => search.Limit h p l
  | SOp.Offset o => search.Offset h p o
  | SOp.Group q => search.Group h p q
  | SOp.Having q vs => search.Having grow h p q vs
  | SOp.Joins q vs => search.Joins grow h p q vs
  | SOp.Table n => search.Table h p n
  | SOp.unscoped => search.unscoped h p
  | SOp.Raw b => search.Raw h p b

/-- One fluent query-shaping call on a `*DB`, with its arguments. -/
inductive Call where
  | Where (query : Any) (args : List Any)
  | Or (query : Any) (args : List Any)
  | Not (query : Any) (args : List Any)
  | Limit (limit : Any)
  | Offset (offset : Any)
  | Order (value : Any) (reorder : List Bool)
  | Select (query : String)
  | Omit (columns : List String)
  | Table (tableName : String)
  | Group (query : String)
  | Having (query : Any) (values : List Any)
  | Joins (query : String) (args : List Any)
  | Raw (sql : String) (values : List Any)
  | Unscoped
  deriving DecidableEq, Repr

/-- Dispatch a fluent call to the method of `*DB` it names. -/
def DB.call (grow : Nat → Nat) (h : Heap) (s : Nat) : Call → Option (Heap × Nat)
  | Call.Where q a => DB.Where grow h s q a
  | Call.Or q a => DB.Or grow h s q a
  | Call.Not q a => DB.Not grow h s q a
  | Call.Limit l => DB.Limit h s l
  | Call.Offset o => DB.Offset h s o
  | Call.Order v r => DB.Order grow h s v r
  | Call.Select q => DB.Select h s q
  | Call.Omit cs => DB.Omit h s cs
  | Call.Table n => DB.Table h s n
  | Call.Group q => DB.Group h s q
  | Call.Having q vs => DB.Having grow h s q vs
  | Call.Joins q a => DB.Joins grow h s q a
  | Call.Raw sql vs => DB.Raw grow h s sql vs
  | Call.Unscoped => DB.Unscoped h s

/-- A finite sequence of fluent calls made on `s` or on Sessions derived from
it.  Each call names its receiver by position in `s :: rets`, where `rets` are
the Sessions returned so far (a position past the end means `s`).  The result
is the final heap and the Sessions returned, in call order. -/
def runCalls (grow : Nat → Nat) (s : Nat) : Heap → List Nat → List (Nat × Call) →
    Option (Heap × List Nat)
  | h, rets, [] => some (h, rets)
  | h, rets, (i, c) :: cs =>
    match DB.call grow h ((s :: rets).getD i s) c with
    | none => none
    | some (h1, r) => runCalls grow s h1 (rets ++ [r]) cs

/-- The value of a SearchCriteria: each list by its elements, and the scalars. -/
structure Criteria where
  whereConditions : List Elem
  orConditions : List Elem
  notConditions : List Elem
  havingConditions : List Elem
  joinConditions : List Elem
  selects : String
  omits : List String
  orders : List Elem
  offset : Any
  limit : Any
  group : String
  tableName : String
  raw : Bool
  Unscoped : Bool
  ignoreOrderQuery : Bool
  deriving DecidableEq, Repr

/-- What a `search` object shows in heap `h`. -/
def Heap.view (h : Heap) (s : Search) : Criteria :=
  { whereConditions := h.readSlice s.whereConditions
    orConditions := h.readSlice s.orConditions
    notConditions := h.readSlice s.notConditions
    havingConditions := h.readSlice s.havingConditions
    joinConditions := h.readSlice s.joinConditions
    selects := s.selects, omits := s.omits
    orders := h.readSlice s.orders
    offset := s.offset, limit := s.limit, group := s.group, tableName := s.tableName
    raw := s.raw, Unscoped := s.Unscoped, ignoreOrderQuery := s.ignoreOrderQuery }

/-- The SearchCriteria held by Session `s`: `none` when `s.search` is nil (or
`s` is not allocated). -/
def Heap.criteria (h : Heap) (s : Nat) : Option Criteria := do
  let d ← h.dbs[s]?
  let q ← d.search
  let sr ← h.searches[q]?
  some (h.view sr)

/-- The back-reference `s.search.db` of Session `s`. -/
def Heap.backRef (h : Heap) (s : Nat) : Option Nat := do
  let d ← h.dbs[s]?
  let q ← d.search
  let sr ← h.searches[q]?
  sr.db

/-- The six slices of a `search` that the code appends to. -/
def Search.slices (s : Search) : List Slice :=
  [s.whereConditions, s.orConditions, s.notConditions, s.havingConditions,
   s.joinConditions, s.orders]

/-- A slice header is well formed in `h`: `len ≤ cap`, and when it has capacity
its backing array is allocated and holds at least `cap` cells. -/
def Slice.wf (h : Heap) (u : Slice) : Prop :=
  u.len ≤ u.cap ∧ (0 < u.cap → u.arr < h.arrays.length ∧ u.cap ≤ (h.arrays.getD u.arr []).length)

/-- Appending to `u` does not write under a protected prefix: if `u` has spare
capacity, every protected prefix `(a, l)` of the array of `u` ends at or before
`u.len`. -/
def Slice.safe (P : List (Nat × Nat)) (u : Slice) : Prop :=
  ∀ a l, (a, l) ∈ P → u.arr = a → u.len < u.cap → l ≤ u.len

/-- The prefixes `(arr, len)` that the slices of a `search` show. -/
def Search.prot (s : Search) : List (Nat × Nat) :=
  s.slices.map (fun u => (u.arr, u.len))

/-- Session `s` is well formed in `h`: it is allocated; its `search` is nil or
allocated; each slice of its criteria is well formed; and no slice of its
criteria has spare capacity lying under the elements of another (which holds
whenever the slices that have capacity sit in distinct arrays, as every array
that `append` allocates does). -/
def Heap.Session (h : Heap) (s : Nat) : Prop :=
  ∃ d, h.dbs[s]? = some d ∧
    ∀ q, d.search = some q → ∃ sr, h.searches[q]? = some sr ∧
      ∀ u ∈ sr.slices, u.wf h ∧ u.safe sr.prot

/-! ## The SQL interface -/

/-- One row of a result set. -/
abbrev Row := List Any

/-- A `*sql.Rows`: its columns, the rows `Next` yields, and what `Err` reports
once `Next` has returned false (`none`: a clean end). -/
structure Rows where
  columns : List String
  rows : List Row
  err : Option Err
  deriving DecidableEq, Repr

/-- A call made on the underlying SQL interface. -/
inductive IOCall where
  | Exec (query : String) (args : List Any)
  | Query (query : String) (args : List Any)
  | Commit
  | Rollback
  deriving DecidableEq, Repr

/-- The calls made on the SQL interface so far, oldest first. -/
abbrev Trace := List IOCall

/-- The answers of the SQL interface, each a function of the calls made before
and of the arguments.  `Exec` answers with the value of
`result.RowsAffected()` or an error. -/
structure Driver where
  Exec : Trace → String → List Any → Except Err Int
  Query : Trace → String → List Any → Except Err Rows
  Commit : Trace → Option Err
  Rollback : Trace → Option Err

/-! ## The execution context

`scope.go` is not among the sources.  `Scope` is built in `DB.NewScope`
(main.go) from `db`, `Search` and `Value`, and call_back.go reads `SQL` and
`SQLVars`; its methods are modelled from the collaborator contract of the
spec.  A `Scope` here holds the objects `scope.db` and `scope.Search` point
to: both are allocated by `NewScope` for this one context. -/

/-- The struct `Scope`, with the `DB` and `search` it points to. -/
structure Scope where
  db : DB
  Search : Search
  Value : Target
  SQL : String
  SQLVars : List Any
  deriving DecidableEq, Repr

/-- Modelled from the spec: the renderers of the execution context that the
processors consume, missing with scope.go, and the two library calls whose
result is formatted into SQL text.  `QuotedTableName()` is the dialect-quoted
table identifier; `CombinedConditionSql()` the rendered condition clause,
together with the parameters it binds; `bindVar n` the placeholder token of the
`n`-th bound parameter; `selectSQL` the SELECT text and parameters that
`prepareQuerySQL` renders from the criteria; `scan` populates a record from one
row and may fail; `now` is `time.Now()` and `sprint` is the `%v` of `fmt`. -/
structure Collab where
  QuotedTableName : Scope → String
  CombinedConditionSql : Scope → String × List Any
  bindVar : Nat → String
  selectSQL : Scope → String × List Any
  scan : List String → Row → Record → Record × Option Err
  now : Any
  sprint : Any → String

/-- Modelled from the spec: `HasError()`, the check of the error accumulated
on the context and its Session. -/
def Scope.HasError (sc : Scope) : Bool := sc.db.Error.isSome

/-- Modelled from the spec: `Err(error)`, error accumulation.  A nil error
changes nothing; a non-nil one is recorded (joined to an earlier one).  The
error passed is returned. -/
def Scope.Err (sc : Scope) (e : Option Err) : Scope × Option Err :=
  match e with
  | none => (sc, none)
  | some x =>
    ({ sc with db := { sc.db with Error := some (match sc.db.Error with
        | none => x
        | some old => old ++ "; " ++ x) } }, some x)

/-- Modelled from the spec: `Raw(sqlText)` commits final SQL text to the
context. -/
def Scope.Raw (sc : Scope) (sql : String) : Scope := { sc with SQL := sql }

/-- Modelled from the spec: `Fields()`, the ordered field descriptors of the
record (of the element type, for a collection). -/
def Scope.Fields (sc : Scope) : List Field :=
  match sc.Value with
  | Target.struct r => r
  | Target.slice _ zero _ => zero
  | _ => []

/-- Modelled from the spec: `FieldByName(name)`, optional lookup of a field
descriptor by its conventional name. -/
def Scope.FieldByName (sc : Scope) (name : String) : Option Field :=
  sc.Fields.find? (fun f => f.Name == name)

/-- Modelled from the spec: the setter of a field descriptor, `field.Set(v)`,
which stores `v` in that field of the record. -/
def Scope.setField (sc : Scope) (name : String) (v : Any) : Scope :=
  match sc.Value with
  | Target.struct r =>
    { sc with Value := Target.struct (r.map (fun f => if f.Name == name then { f with Field := v } else f)) }
  | _ => sc

/-- Modelled from the spec: `AddToVars(value)` registers a bound parameter and
returns its placeholder token. -/
def Scope.AddToVars (env : Collab) (sc : Scope) (v : Any) : Scope × String :=
  ({ sc with SQLVars := sc.SQLVars ++ [v] }, env.bindVar (sc.SQLVars.length + 1))

/-- Modelled from the spec: `CombinedConditionSql()`; the parameters the clause
binds are registered on the context. -/
def Scope.CombinedConditionSql (env : Collab) (sc : Scope) : Scope × String :=
  ({ sc with SQLVars := sc.SQLVars ++ (env.CombinedConditionSql sc).2 },
   (env.CombinedConditionSql sc).1)

/-- Modelled from the spec: `prepareQuerySQL()` renders the SELECT statement
text and parameters from the current criteria and commits them. -/
def Scope.prepareQuerySQL (env : Collab) (sc : Scope) : Scope :=
  { sc with SQL := (env.selectSQL sc).1, SQLVars := sc.SQLVars ++ (env.selectSQL sc).2 }

/-- The value of an `int64` after an arithmetic step. -/
def wrap64 (x : Int) : Int := (x + 2 ^ 63) % 2 ^ 64 - 2 ^ 63

/-! ## call_back.go

A processor takes the context and the trace of the SQL interface and returns
both, or `none` when it panics (a call through a nil handle; no call is made
then).  `defer scope.trace()` only logs and is left out. -/

/-- A processor, `func(scope *Scope)`. -/
abbrev Processor := Scope → Trace → Option (Scope × Trace)

/-- The struct `Callback`. -/
structure Callback where
  Creates : List Processor
  Updates : List Processor
  Deletes : List Processor
  Queries : List Processor
  RowQueries : List Processor

/-- The tail of the three writing processors, on a live handle: the call
`scope.db.db.Exec(scope.SQL, scope.SQLVars...)` is made and answered, then
`scope.Err(err) == nil { scope.db.RowsAffected, _ = result.RowsAffected() }`. -/
def execLive (drv : Driver) (sc : Scope) (tr : Trace) : Scope × Trace :=
  match drv.Exec tr sc.SQL sc.SQLVars with
  | Except.ok n =>
    ({ sc with db := { sc.db with RowsAffected := n } }, tr ++ [IOCall.Exec sc.SQL sc.SQLVars])
  | Except.error e => ((sc.Err (some e)).1, tr ++ [IOCall.Exec sc.SQL sc.SQLVars])

/-- The tail of the three writing processors:
`if result, err := scope.db.db.Exec(scope.SQL, scope.SQLVars...); scope.Err(err) == nil {
scope.db.RowsAffected, _ = result.RowsAffected() }`.  The method call panics
when `scope.db.db` is not live. -/
def execAndCount (drv : Driver) (sc : Scope) (tr : Trace) : Option (Scope × Trace) :=
  if sc.db.db.live then some (execLive drv sc tr) else none

/-- The body of the `for rows.Next()` loop of `queryCallBack`, over the rows
the driver yields. -/
def queryLoop (env : Collab) (columns : List String) : Scope → List Row → Scope
  | sc, [] => sc
  | sc, row :: rest =>
    let sc1 : Scope := { sc with db := { sc.db with RowsAffected := wrap64 (sc.db.RowsAffected + 1) } }
    match sc1.Value with
    | Target.slice isPtr zero elems =>
      let (rec, e) := env.scan columns row zero
      let sc2 := (sc1.Err e).1
      queryLoop env columns { sc2 with Value := Target.slice isPtr zero (elems ++ [rec]) } rest
    | Target.struct r =>
      let (rec, e) := env.scan columns row r
      let sc2 := (sc1.Err e).1
      queryLoop env columns { sc2 with Value := Target.struct rec } rest
    | _ => queryLoop env columns sc1 rest

/-- The call `h.Query(query, args...)` on the handle `h`: `none` when the call
panics (the handle is not live), else the answer of the driver. -/
def sqlQuery (drv : Driver) (h : SQLHandle) (tr : Trace) (query : String) (args : List Any) :
    Option (Except Err Rows) :=
  if h.live then some (drv.Query tr query args) else none

/-- The part of `queryCallBack` from `scope.prepareQuerySQL()` on. -/
def queryRun (env : Collab) (drv : Driver) (sc : Scope) (tr : Trace) : Option (Scope × Trace) :=
  let sc1 := sc.prepareQuerySQL env
  if !sc1.HasError then
    let sc2 : Scope := { sc1 with db := { sc1.db with RowsAffected := 0 } }
    match sqlQuery drv sc2.db.db tr sc2.SQL sc2.SQLVars with
    | none => none
    | some (Except.error e) =>
      some ((sc2.Err (some e)).1, tr ++ [IOCall.Query sc2.SQL sc2.SQLVars])
    | some (Except.ok rows) =>
      let sc3 := queryLoop env rows.columns sc2 rows.rows
      some (match rows.err with
        | some e => (sc3.Err (some e)).1
        | none => sc3,
       tr ++ [IOCall.Query sc2.SQL sc2.SQLVars])
  else some (sc1, tr)

/-- `queryCallBack`. -/
def queryCallBack (env : Collab) (drv : Driver) : Processor := fun sc tr =>
  match sc.Value with
  | Target.slice isPtr zero _ =>
    queryRun env drv { sc with Value := Target.slice isPtr zero [] } tr
  | Target.struct _ => queryRun env drv sc tr
  | _ => some ((sc.Err (some "unsupported destination, should be slice or struct")).1, tr)

/-- The stamping `if f, ok := scope.FieldByName(name); ok { f.Set(now) }`. -/
def stamp (env : Collab) (sc : Scope) (name : String) : Scope :=
  match sc.FieldByName name with
  | some f => sc.setField f.Name env.now
  | none => sc

/-- The loop of `insertCallBack` over `scope.Fields()`: the context, the
columns and the placeholders. -/
def insertFields (env : Collab) : Scope × List String × List String → List Field →
    Scope × List String × List String
  | acc, [] => acc
  | (sc, columns, placeholders), field :: rest =>
    if !field.IsPrimaryKey then
      let (sc1, ph) := sc.AddToVars env field.Field
      insertFields env (sc1, columns ++ [field.DBName], placeholders ++ [ph]) rest
    else insertFields env (sc, columns, placeholders) rest

/-- The statement that `insertCallBack` builds and commits when the context has
no error.  Both stampings look up `"UpdatedAt"`, as in the source. -/
def insertStatement (env : Collab) (sc : Scope) : Scope :=
  let sc1 := stamp env sc "UpdatedAt"
  let sc2 := stamp env sc1 "UpdatedAt"
  let (sc3, columns, placeholders) := insertFields env (sc2, [], []) sc2.Fields
  sc3.Raw ("INSERT INTO " ++ env.QuotedTableName sc3 ++ " (" ++
    ",".intercalate columns ++ ") VALUES (" ++ ",".intercalate placeholders ++ ")")

/-- `insertCallBack`. -/
def insertCallBack (env : Collab) (drv : Driver) : Processor := fun sc tr =>
  if !sc.HasError then execAndCount drv (insertStatement env sc) tr
  else some (sc, tr)

/-- The loop of `updateCallBack` over `scope.Fields()`: the context and the
assignments. -/
def updateFields (env : Collab) : Scope × List String → List Field → Scope × List String
  | acc, [] => acc
  | (sc, sqls), field :: rest =>
    if !field.IsPrimaryKey && field.IsNormal then
      let (sc1, ph) := sc.AddToVars env field.Field
      updateFields env (sc1, sqls ++ [field.DBName ++ " = " ++ ph]) rest
    else updateFields env (sc, sqls) rest

/-- The part of `updateCallBack` before the `Exec`, when the context has no
error: the statement is committed only if there is an assignment. -/
def updateStatement (env : Collab) (sc : Scope) : Scope :=
  let sc1 := stamp env sc "UpdatedAt"
  let (sc2, sqls) := updateFields env (sc1, []) sc1.Fields
  if sqls.length > 0 then
    let table := env.QuotedTableName sc2
    let (sc2c, cond) := sc2.CombinedConditionSql env
    sc2c.Raw ("UPDATE " ++ table ++ " SET " ++ ", ".intercalate sqls ++ " " ++ cond)
  else sc2

/-- `updateCallBack`. -/
def updateCallBack (env : Collab) (drv : Driver) : Processor := fun sc tr =>
  if !sc.HasError then execAndCount drv (updateStatement env sc) tr
  else some (sc, tr)

/-- The statement text of the soft-delete branch. -/
def softDeleteSQL (env : Collab) (table column cond : String) : String :=
  "UPDATE " ++ table ++ " SET " ++ column ++ "=" ++ env.sprint env.now ++ " " ++ cond

/-- The statement text of the hard-delete branch. -/
def hardDeleteSQL (table cond : String) : String :=
  "DELETE FROM " ++ table ++ " " ++ cond

/-- The conditional block of `deleteCallBack`, before the `Exec`. -/
def deleteStatement (env : Collab) (sc : Scope) : Scope :=
  if !sc.HasError then
    let table := env.QuotedTableName sc
    match sc.FieldByName "DeletedAt" with
    | some deletedAtField =>
      if sc.Search.Unscoped then
        let (scc, cond) := sc.CombinedConditionSql env
        scc.Raw (softDeleteSQL env table deletedAtField.DBName cond)
      else
        let (scc, cond) := sc.CombinedConditionSql env
        scc.Raw (hardDeleteSQL table cond)
    | none =>
      let (scc, cond) := sc.CombinedConditionSql env
      scc.Raw (hardDeleteSQL table cond)
  else sc

/-- `deleteCallBack`: the `Exec` and the count follow the block
unconditionally. -/
def deleteCallBack (env : Collab) (drv : Driver) : Processor := fun sc tr =>
  execAndCount drv (deleteStatement env sc) tr

/-- The registry `DefaultCallback` after `init()`. -/
def DefaultCallback (env : Collab) (drv : Driver) : Callback :=
  { Creates := [insertCallBack env drv], Updates := [updateCallBack env drv],
    Deletes := [deleteCallBack env drv], Queries := [queryCallBack env drv], RowQueries := [] }

/-! ## main.go: terminal calls, transactions, errors -/

/-- Modelled from the spec: `Scope.callCallbacks`, the dispatch of scope.go.
It invokes every registered processor of the kind, in order, on the same
context, and returns the context; a panic of a processor ends the dispatch. -/
def Scope.callCallbacks : List Processor → Scope → Trace → Option (Scope × Trace)
  | [], sc, tr => some (sc, tr)
  | f :: procs, sc, tr =>
    match f sc tr with
    | none => none
    | some (sc1, tr1) => Scope.callCallbacks procs sc1 tr1

/-- `DB.NewScope`: the context, with the addresses of its `db` and `Search`. -/
def DB.NewScope (h : Heap) (s : Nat) (value : Target) : Option (Heap × Scope × Nat × Nat) := do
  let (h1, c, q) ← DB.clone h s
  let d ← h1.dbs[c]?
  let h2 := h1.setDB c { d with Value := value }
  let sr ← h2.searches[q]?
  some (h2, { db := { d with Value := value }, Search := sr, Value := value, SQL := "",
              SQLVars := [] }, c, q)

/-- The common shape of `Find`, `Insert`, `Update` and `Delete`:
`scope := s.NewScope(v); return scope.callCallbacks(s.Callbacks.K).db`, with
the writes the processors made through `scope.db` and `scope.Search` stored
back.  `scope.Value` and `scope.db.Value` are one Go value (the pointer to the
destination), so what the processors left in the destination is what the
returned Session shows as its `Value`.  `regs` holds the registries by
address. -/
def DB.terminal (regs : List Callback) (kind : Callback → List Processor) (h : Heap) (tr : Trace)
    (s : Nat) (value : Target) : Option (Heap × Trace × Nat) := do
  let (h1, sc, c, q) ← DB.NewScope h s value
  let d ← h.dbs[s]?
  let k ← d.Callbacks
  let cb ← regs[k]?
  let (sc1, tr1) ← sc.callCallbacks (kind cb) tr
  some ((h1.setDB c { sc1.db with Value := sc1.Value }).setSearch q sc1.Search, tr1, c)

/-- `DB.Find`. -/
def DB.Find (regs : List Callback) (h : Heap) (tr : Trace) (s : Nat) (out : Target) :
    Option (Heap × Trace × Nat) :=
  DB.terminal regs (fun cb => cb.Queries) h tr s out

/-- `DB.Insert`. -/
def DB.Insert (regs : List Callback) (h : Heap) (tr : Trace) (s : Nat) (value : Target) :
    Option (Heap × Trace × Nat) :=
  DB.terminal regs (fun cb => cb.Creates) h tr s value

/-- `DB.Update`. -/
def DB.Update (regs : List Callback) (h : Heap) (tr : Trace) (s : Nat) (value : Target) :
    Option (Heap × Trace × Nat) :=
  DB.terminal regs (fun cb => cb.Updates) h tr s value

/-- `DB.Delete`: `s.NewScope(nil)`. -/
def DB.Delete (regs : List Callback) (h : Heap) (tr : Trace) (s : Nat) :
    Option (Heap × Trace × Nat) :=
  DB.terminal regs (fun cb => cb.Deletes) h tr s Target.nil

/-- `DB.AddError`: `return err`. -/
def DB.AddError (h : Heap) (_s : Nat) (err : Option Err) : Heap × Option Err := (h, err)

/-- `DB.Commit`: the handle passes the `sqlTx` assertion and the nil tests
exactly when it is a non-nil `*sql.Tx`. -/
def DB.Commit (drv : Driver) (h : Heap) (tr : Trace) (s : Nat) : Option (Heap × Trace × Nat) := do
  let d ← h.dbs[s]?
  match d.db with
  | SQLHandle.sqlTx (some _) =>
    let (h1, _) := DB.AddError h s (drv.Commit tr)
    some (h1, tr ++ [IOCall.Commit], s)
  | _ => some (h, tr, s)

/-- `DB.Rollback`. -/
def DB.Rollback (drv : Driver) (h : Heap) (tr : Trace) (s : Nat) : Option (Heap × Trace × Nat) := do
  let d ← h.dbs[s]?
  match d.db with
  | SQLHandle.sqlTx (some _) =>
    let (h1, _) := DB.AddError h s (drv.Rollback tr)
    some (h1, tr ++ [IOCall.Rollback], s)
  | _ => some (h, tr, s)

/-- `DB.ScanRows`; `colErr` is the error of `rows.Columns()`. -/
def DB.ScanRows (h : Heap) (s : Nat) (colErr : Option Err) (result : Target) :
    Option (Heap × Option Err) := do
  let (h1, _, c, _) ← DB.NewScope h s result
  let (h2, e) := DB.AddError h1 c colErr
  if e = none then some (h2, none)
  else do
    let clone ← h2.dbs[c]?
    some (h2, clone.Error)

/-! ## Concrete inputs -/

/-- Capacity doubling, the growth of the Go runtime for short slices appended
to one element at a time (0, 1, 2, 4, 8, …; `append` takes at least `len + 1`). -/
def growDouble (c : Nat) : Nat := 2 * c

/-- The zero value `DB{}`. -/
def zeroDB : DB :=
  { Value := Target.nil, Error := none, RowsAffected := 0, db := SQLHandle.none, logger := none,
    logMode := 0, search := none, values := [], Callbacks := none }

/-- A heap holding one Session, as `Open` returns it: no criteria yet, the
default registry (address 0), a live `*sql.DB`. -/
def heap0 : Heap :=
  { dbs := [{ zeroDB with db := SQLHandle.sqlDB 0, Callbacks := some 0 }], searches := [],
    arrays := [] }

/-- Three conditions chained from the Session of `heap0`:
`p := db.Where("x1").Where("x2").Where("x3")`; `p` is Session 3. -/
def chain3 : List (Nat × Call) :=
  [(0, Call.Where (Any.str "x1") []), (1, Call.Where (Any.str "x2") []),
   (2, Call.Where (Any.str "x3") [])]

/-- Then `a := p.Where("a")`: `a` is Session 4. -/
def chainA : List (Nat × Call) := chain3 ++ [(3, Call.Where (Any.str "a") [])]

/-- Then `b := p.Where("b")`: `b` is Session 5. -/
def chainAB : List (Nat × Call) := chainA ++ [(3, Call.Where (Any.str "b") [])]

/-- The where-list that Session `r` shows in the heap reached by `calls`. -/
def whereAfter (calls : List (Nat × Call)) (r : Nat) : Option (List Elem) :=
  match runCalls growDouble 0 heap0 [] calls with
  | none => none
  | some (h, _) => (h.criteria r).map (fun c => c.whereConditions)

/-- A criteria holding one condition, in an array with spare capacity, and one
order directive, in a full array. -/
def searchW : Search :=
  { search.fresh with
    db := some 0
    whereConditions := { arr := 0, len := 1, cap := 2 }
    orders := { arr := 1, len := 1, cap := 1 } }

/-- A heap with one Session, whose criteria is `searchW`. -/
def heapW : Heap :=
  { dbs := [{ zeroDB with search := some 0 }],
    searches := [searchW],
    arrays := [[Elem.cond { query := Any.str "id = ?", args := [Any.int 5] }, Elem.zero],
               [Elem.val (Any.str "name")]] }

/-- A chain on the Session of `heapW` that appends, reorders and branches. -/
def callsW : List (Nat × Call) :=
  [(0, Call.Where (Any.str "a") []), (0, Call.Where (Any.str "b") []),
   (1, Call.Order (Any.str "id") [true]), (0, Call.Raw "select 1" []),
   (2, Call.Having (Any.str "n > ?") [Any.int 1]), (0, Call.Limit (Any.int 1))]

/-- A collaborator for the examples: table `users`, the clause
`WHERE id = ?` binding `5`, `?` placeholders. -/
def envE : Collab :=
  { QuotedTableName := fun _ => "users"
    CombinedConditionSql := fun _ => ("WHERE id = ?", [Any.int 5])
    bindVar := fun _ => "?"
    selectSQL := fun _ => ("SELECT * FROM users", [])
    scan := fun _ row r => (r.map (fun f => { f with Field := row.headD Any.nil }), none)
    now := Any.str "2024-01-01"
    sprint := fun v => match v with
      | Any.str s => s
      | _ => "" }

/-- A driver for the examples: every statement succeeds; `Exec` reports one
affected row; `Query` yields two rows and then an iteration error. -/
def drvE : Driver :=
  { Exec := fun _ _ _ => Except.ok 1
    Query := fun _ _ _ =>
      Except.ok { columns := ["id"], rows := [[Any.int 1], [Any.int 2]], err := some "bad row" }
    Commit := fun _ => some "commit failed"
    Rollback := fun _ => some "rollback failed" }

/-- The primary-key field `ID`. -/
def fieldID : Field :=
  { Name := "ID", DBName := "id", IsPrimaryKey := true, IsNormal := true, Field := Any.int 5 }

/-- The soft-delete field `DeletedAt`. -/
def fieldDeletedAt : Field :=
  { Name := "DeletedAt", DBName := "deleted_at", IsPrimaryKey := false, IsNormal := true,
    Field := Any.nil }

/-- A context on value `v` with criteria `sr`, affected-row count `n`, no error
and nothing rendered yet. -/
def scopeOf (v : Target) (sr : Search) (n : Int) : Scope :=
  { db := { zeroDB with Value := v, RowsAffected := n, db := SQLHandle.sqlDB 0 }, Search := sr,
    Value := v, SQL := "", SQLVars := [] }

/-- A context on a record with a soft-delete field, criteria not unscoped. -/
def scopeSoft : Scope := scopeOf (Target.struct [fieldID, fieldDeletedAt]) search.fresh 0

/-- A context on a record whose only field is the primary key, with an
affected-row count of 7. -/
def scopeKeyOnly : Scope := scopeOf (Target.struct [fieldID]) search.fresh 7

/-- The context of `scopeKeyOnly` on a Session with no SQL handle (such as
`&DB{Callbacks: DefaultCallback}`). -/
def scopeNil : Scope := { scopeKeyOnly with db := { scopeKeyOnly.db with db := SQLHandle.none } }

/-- A context whose destination is a collection holding one stale element. -/
def scopeColl : Scope := scopeOf (Target.slice false [fieldID] [[fieldID]]) search.fresh 7

/-- A heap with one Session whose affected-row count is 5 and whose registry
(address 0) is `emptyRegistry`. -/
def heapR : Heap :=
  { dbs := [DB.mk Target.nil (some "earlier") 5 (SQLHandle.sqlTx (some 0)) none 0 none [] (some 0)],
    searches := [], arrays := [] }

/-- A registry with no processor of any kind. -/
def emptyRegistry : Callback :=
  { Creates := [], Updates := [], Deletes := [], Queries := [], RowQueries := [] }

/-! ## Invariants used in the proofs -/

/-- Heap `h'` extends the arrays of `h`: no array is lost or resized, and every
protected prefix reads the same. -/
def ArrExt (P : List (Nat × Nat)) (h h' : Heap) : Prop :=
  h.arrays.length ≤ h'.arrays.length ∧
  (∀ a, a < h.arrays.length → (h'.arrays.getD a []).length = (h.arrays.getD a []).length) ∧
  (∀ a l, (a, l) ∈ P → (h'.arrays.getD a []).take l = (h.arrays.getD a []).take l)

/-- Every non-empty protected prefix lies in an allocated array. -/
def Pwf (P : List (Nat × Nat)) (h : Heap) : Prop :=
  ∀ a l, (a, l) ∈ P → 0 < l → a < h.arrays.length

/-- Session `t` is allocated in `h`, and each slice of its criteria is well
formed and safe to append to with respect to the protected prefixes `P`. -/
def Good (P : List (Nat × Nat)) (h : Heap) (t : Nat) : Prop :=
  ∃ d, h.dbs[t]? = some d ∧
    ∀ q, d.search = some q → ∃ sr, h.searches[q]? = some sr ∧
      ∀ u ∈ sr.slices, u.wf h ∧ u.safe P

/-- Heap `h'` extends `h`: objects of `h` are untouched, arrays extended. -/
def Ext (P : List (Nat × Nat)) (h h' : Heap) : Prop :=
  (∃ l, h'.dbs = h.dbs ++ l) ∧ (∃ l, h'.searches = h.searches ++ l) ∧ ArrExt P h h'

/-- The slices `l` of one criteria are tidy in `h`: each is well formed, and
two of them that have capacity sit in distinct backing arrays. -/
def SlicesTidy (h : Heap) (l : List Slice) : Prop :=
  (∀ u ∈ l, u.wf h) ∧
  ∀ (i j : Nat) (u v : Slice), l[i]? = some u → l[j]? = some v → i ≠ j →
    0 < u.cap → 0 < v.cap → u.arr ≠ v.arr

/-- Heap `h` is tidy: every criteria in it has tidy slices, and every Session
points to an allocated criteria or to none. -/
def Heap.tidy (h : Heap) : Prop :=
  (∀ (q : Nat) (sr : Search), h.searches[q]? = some sr → SlicesTidy h sr.slices) ∧
  ∀ (s : Nat) (d : DB) (q : Nat), h.dbs[s]? = some d → d.search = some q → q < h.searches.length

/-- The common shape of the fluent methods of `*DB`:
`s.clone().search.F(...).db`. -/
def fluent (F : Heap → Nat → Option (Heap × Nat)) (h : Heap) (s : Nat) : Option (Heap × Nat) := do
  let (h1, _, q) ← DB.clone h s
  let (h2, q2) ← F h1 q
  let r ← search.dbOf h2 q2
  some (h2, r)

/-- A method `F` of `*search` rewrites only the object it is called on, may
extend the arrays, and keeps the slices well formed and safe. -/
def StepOK (P : List (Nat × Nat)) (F : Heap → Nat → Option (Heap × Nat)) : Prop :=
  ∀ h p sn, h.searches[p]? = some sn →
    ∃ h' sn', F h p = some (h', p) ∧ h'.dbs = h.dbs ∧ h'.searches = h.searches.set p sn' ∧
      sn'.db = sn.db ∧
      (Pwf P h → (∀ u ∈ sn.slices, u.wf h ∧ u.safe P) →
        ArrExt P h h' ∧ ∀ u ∈ sn'.slices, u.wf h' ∧ u.safe P) ∧
      (SlicesTidy h sn.slices → SlicesTidy h' sn'.slices)

/-! # Verification

## Lists and backing arrays -/

theorem take_set_of_le {α : Type} (xs : List α) (i l : Nat) (e : α) (h : l ≤ i) :
    (xs.set i e).take l = xs.take l := by
  apply List.ext_getElem?
  intro n
  simp only [List.getElem?_take, List.getElem?_set]
  by_cases hn : n < l
  · have : i ≠ n := by omega
    simp [hn, this]
  · simp [hn]

theorem getD_set_self {α : Type} (xs : List α) (i : Nat) (x d : α) (h : i < xs.length) :
    (xs.set i x).getD i d = x := by
  simp [List.getD_eq_getElem?_getD, List.getElem?_set, h]

theorem getD_set_ne {α : Type} (xs : List α) (i j : Nat) (x d : α) (h : i ≠ j) :
    (xs.set i x).getD j d = xs.getD j d := by
  simp [List.getD_eq_getElem?_getD, List.getElem?_set, h]

theorem arrExt_refl (P : List (Nat × Nat)) (h : Heap) : ArrExt P h h :=
  ⟨Nat.le_refl _, fun _ _ => rfl, fun _ _ _ => rfl⟩

theorem arrExt_of_eq (P : List (Nat × Nat)) (h h' : Heap) (e : h'.arrays = h.arrays) :
    ArrExt P h h' := by
  unfold ArrExt; rw [e]; exact ⟨Nat.le_refl _, fun _ _ => rfl, fun _ _ _ => rfl⟩

theorem arrExt_trans {P : List (Nat × Nat)} {h1 h2 h3 : Heap}
    (a : ArrExt P h1 h2) (b : ArrExt P h2 h3) : ArrExt P h1 h3 := by
  obtain ⟨a1, a2, a3⟩ := a
  obtain ⟨b1, b2, b3⟩ := b
  refine ⟨Nat.le_trans a1 b1, ?_, ?_⟩
  · intro x hx
    rw [b2 x (Nat.lt_of_lt_of_le hx a1), a2 x hx]
  · intro x l hx
    rw [b3 x l hx, a3 x l hx]

theorem pwf_mono {P : List (Nat × Nat)} {h h' : Heap} (e : ArrExt P h h') (p : Pwf P h) :
    Pwf P h' :=
  fun a l hm hl => Nat.lt_of_lt_of_le (p a l hm hl) e.1

theorem slice_wf_mono {P : List (Nat × Nat)} {h h' : Heap} {u : Slice}
    (e : ArrExt P h h') (w : u.wf h) : u.wf h' := by
  obtain ⟨w1, w2⟩ := w
  refine ⟨w1, fun hc => ?_⟩
  obtain ⟨w3, w4⟩ := w2 hc
  exact ⟨Nat.lt_of_lt_of_le w3 e.1, by rw [e.2.1 _ w3]; exact w4⟩

theorem slice_wf_congr {h h' : Heap} {u : Slice} (e : h'.arrays = h.arrays) (w : u.wf h) :
    u.wf h' := by
  unfold Slice.wf at *; rw [e]; exact w

theorem readSlice_length {h : Heap} {u : Slice} (w : u.wf h) : (h.readSlice u).length = u.len := by
  obtain ⟨w1, w2⟩ := w
  unfold Heap.readSlice
  rw [List.length_take]
  rcases Nat.eq_zero_or_pos u.cap with hc | hc
  · have : u.len = 0 := by omega
    simp [this]
  · have := (w2 hc).2
    omega

theorem append_inplace (grow : Nat → Nat) (h : Heap) (u : Slice) (e : Elem) (hlt : u.len < u.cap) :
    h.append grow u e =
      ({ dbs := h.dbs, searches := h.searches,
         arrays := h.arrays.set u.arr ((h.arrays.getD u.arr []).set u.len e) },
       { arr := u.arr, len := u.len + 1, cap := u.cap }) := by
  unfold Heap.append; rw [if_pos hlt]

theorem append_grow (grow : Nat → Nat) (h : Heap) (u : Slice) (e : Elem) (hlt : ¬ u.len < u.cap) :
    h.append grow u e =
      ({ dbs := h.dbs, searches := h.searches,
         arrays := h.arrays ++ [h.readSlice u ++ e ::
           List.replicate (max (grow u.cap) (u.len + 1) - (u.len + 1)) Elem.zero] },
       { arr := h.arrays.length, len := u.len + 1, cap := max (grow u.cap) (u.len + 1) }) := by
  unfold Heap.append; rw [if_neg hlt]

theorem append_frame_dbs (grow : Nat → Nat) (h : Heap) (u : Slice) (e : Elem) :
    (h.append grow u e).1.dbs = h.dbs ∧ (h.append grow u e).1.searches = h.searches := by
  unfold Heap.append; split <;> exact ⟨rfl, rfl⟩

/-- What `append` does to the heap and to the header. -/
theorem append_frame (grow : Nat → Nat) (P : List (Nat × Nat)) (h : Heap) (u : Slice) (e : Elem)
    (hP : Pwf P h) (hw : u.wf h) (hs : u.safe P) :
    (h.append grow u e).1.dbs = h.dbs ∧ (h.append grow u e).1.searches = h.searches ∧
    ArrExt P h (h.append grow u e).1 ∧
    (h.append grow u e).2.wf (h.append grow u e).1 ∧ (h.append grow u e).2.safe P := by
  by_cases hlt : u.len < u.cap
  · rw [append_inplace grow h u e hlt]
    have hc : 0 < u.cap := by omega
    obtain ⟨ha, hl⟩ := hw.2 hc
    refine ⟨rfl, rfl, ⟨?_, ?_, ?_⟩, ⟨?_, ?_⟩, ?_⟩
    · show h.arrays.length ≤ (h.arrays.set _ _).length
      rw [List.length_set]
    · intro a _
      show ((h.arrays.set _ _).getD a []).length = _
      by_cases hau : u.arr = a
      · subst hau; rw [getD_set_self _ _ _ _ ha, List.length_set]
      · rw [getD_set_ne _ _ _ _ _ hau]
    · intro a l hm
      show ((h.arrays.set _ _).getD a []).take l = _
      by_cases hau : u.arr = a
      · have hle := hs a l hm hau hlt
        subst hau
        rw [getD_set_self _ _ _ _ ha]
        exact take_set_of_le _ _ _ _ hle
      · rw [getD_set_ne _ _ _ _ _ hau]
    · show u.len + 1 ≤ u.cap
      omega
    · intro _
      show u.arr < (h.arrays.set _ _).length ∧ u.cap ≤ ((h.arrays.set _ _).getD u.arr []).length
      rw [List.length_set, getD_set_self _ _ _ _ ha, List.length_set]
      exact ⟨ha, hl⟩
    · intro a l hm hau _
      have := hs a l hm hau hlt
      show l ≤ u.len + 1
      omega
  · rw [append_grow grow h u e hlt]
    refine ⟨rfl, rfl, ⟨?_, ?_, ?_⟩, ⟨?_, ?_⟩, ?_⟩
    · show h.arrays.length ≤ (h.arrays ++ _).length
      rw [List.length_append]; omega
    · intro a ha
      show ((h.arrays ++ _).getD a []).length = _
      rw [List.getD_append _ _ _ a ha]
    · intro a l hm
      show ((h.arrays ++ _).getD a []).take l = _
      rcases Nat.eq_zero_or_pos l with hl | hl
      · subst hl; rfl
      · have ha := hP a l hm hl
        rw [List.getD_append _ _ _ a ha]
    · show u.len + 1 ≤ max (grow u.cap) (u.len + 1)
      omega
    · intro _
      show h.arrays.length < (h.arrays ++ _).length ∧
        max (grow u.cap) (u.len + 1) ≤ ((h.arrays ++ _).getD h.arrays.length []).length
      have hr := readSlice_length hw
      rw [List.getD_append_right _ _ _ _ (Nat.le_refl _)]
      simp only [Nat.sub_self, List.getD_cons_zero, List.length_append, List.length_cons,
        List.length_replicate, List.length_nil, hr]
      omega
    · intro a l hm hau _
      rcases Nat.eq_zero_or_pos l with hl | hl
      · omega
      · have ha := hP a l hm hl
        have : h.arrays.length = a := hau
        omega

/-- The grown or extended slice shows the old elements followed by the new one. -/
theorem append_read (grow : Nat → Nat) (h : Heap) (u : Slice) (e : Elem) (hw : u.wf h) :
    (h.append grow u e).1.readSlice (h.append grow u e).2 = h.readSlice u ++ [e] := by
  by_cases hlt : u.len < u.cap
  · rw [append_inplace grow h u e hlt]
    have hc : 0 < u.cap := by omega
    obtain ⟨ha, hl⟩ := hw.2 hc
    show ((h.arrays.set _ _).getD u.arr []).take (u.len + 1) = (h.arrays.getD u.arr []).take u.len ++ [e]
    rw [getD_set_self _ _ _ _ ha]
    have hlen : u.len < (h.arrays.getD u.arr []).length := by omega
    generalize h.arrays.getD u.arr [] = xs at hlen
    apply List.ext_getElem?
    intro n
    simp only [List.getElem?_take, List.getElem?_set, List.getElem?_append, List.length_take]
    by_cases h1 : n < u.len
    · have : u.len ≠ n := by omega
      have h2 : n < u.len + 1 := by omega
      have h3 : n < min u.len xs.length := by omega
      simp [h1, this, h2, h3]
    · by_cases h2 : n = u.len
      · subst h2
        have h3 : ¬ u.len < min u.len xs.length := by omega
        have h4 : u.len - min u.len xs.length = 0 := by omega
        simp [hlen, h3, h4]
      · have h3 : ¬ n < u.len + 1 := by omega
        have h4 : ¬ n < min u.len xs.length := by omega
        have h5 : 1 ≤ n - min u.len xs.length := by omega
        simp [h3, h4, List.getElem?_eq_none, h5]
  · rw [append_grow grow h u e hlt]
    have hr := readSlice_length hw
    show List.take (u.len + 1) (List.getD (h.arrays ++ _) h.arrays.length []) = _
    rw [List.getD_append_right _ _ _ _ (Nat.le_refl _)]
    simp only [Nat.sub_self, List.getD_cons_zero]
    rw [List.take_append_eq_append_take, List.take_of_length_le (by omega), hr]
    simp

/-! ## Frame lemmas for `clone` and the methods of `*search` -/

theorem ext_refl (P : List (Nat × Nat)) (h : Heap) : Ext P h h :=
  ⟨⟨[], by simp⟩, ⟨[], by simp⟩, arrExt_refl P h⟩

theorem ext_trans {P : List (Nat × Nat)} {h1 h2 h3 : Heap}
    (a : Ext P h1 h2) (b : Ext P h2 h3) : Ext P h1 h3 := by
  obtain ⟨⟨l1, e1⟩, ⟨m1, f1⟩, a3⟩ := a
  obtain ⟨⟨l2, e2⟩, ⟨m2, f2⟩, b3⟩ := b
  exact ⟨⟨l1 ++ l2, by rw [e2, e1, List.append_assoc]⟩,
    ⟨m1 ++ m2, by rw [f2, f1, List.append_assoc]⟩, arrExt_trans a3 b3⟩

theorem ext_db_eq {P : List (Nat × Nat)} {h h' : Heap} (e : Ext P h h') {t : Nat} {d : DB}
    (hd : h.dbs[t]? = some d) : h'.dbs[t]? = some d := by
  obtain ⟨⟨l, el⟩, _, _⟩ := e
  have ht : t < h.dbs.length := (List.getElem?_eq_some.1 hd).1
  rw [el, List.getElem?_append_left ht]; exact hd

theorem ext_search_eq {P : List (Nat × Nat)} {h h' : Heap} (e : Ext P h h') {q : Nat} {sr : Search}
    (hd : h.searches[q]? = some sr) : h'.searches[q]? = some sr := by
  obtain ⟨_, ⟨l, el⟩, _⟩ := e
  have ht : q < h.searches.length := (List.getElem?_eq_some.1 hd).1
  rw [el, List.getElem?_append_left ht]; exact hd

theorem good_mono {P : List (Nat × Nat)} {h h' : Heap} (e : Ext P h h') {t : Nat}
    (g : Good P h t) : Good P h' t := by
  obtain ⟨d, hd, hq⟩ := g
  refine ⟨d, ext_db_eq e hd, fun q hs => ?_⟩
  obtain ⟨sr, hsr, hu⟩ := hq q hs
  exact ⟨sr, ext_search_eq e hsr, fun u hm => ⟨slice_wf_mono e.2.2 (hu u hm).1, (hu u hm).2⟩⟩

theorem backRef_eq_some (h : Heap) (t r : Nat) :
    h.backRef t = some r ↔
      ∃ d q sr, h.dbs[t]? = some d ∧ d.search = some q ∧ h.searches[q]? = some sr ∧
        sr.db = some r := by
  simp only [Heap.backRef, Option.bind_eq_bind, Option.bind_eq_some]
  constructor
  · rintro ⟨d, hd, q, hq, sr, hs, hr⟩; exact ⟨d, q, sr, hd, hq, hs, hr⟩
  · rintro ⟨d, q, sr, hd, hq, hs, hr⟩; exact ⟨d, hd, q, hq, sr, hs, hr⟩

theorem backRef_mono {P : List (Nat × Nat)} {h h' : Heap} (e : Ext P h h') {t r : Nat}
    (g : h.backRef t = some r) : h'.backRef t = some r := by
  rw [backRef_eq_some] at g ⊢
  obtain ⟨d, q, sr, hd, hq, hs, hr⟩ := g
  exact ⟨d, q, sr, ext_db_eq e hd, hq, ext_search_eq e hs, hr⟩

theorem fresh_slices (P : List (Nat × Nat)) (h : Heap) (db : Option Nat) :
    ∀ u ∈ ({ search.fresh with db := db } : Search).slices, u.wf h ∧ u.safe P := by
  intro u hu
  simp only [Search.slices, search.fresh, List.mem_cons, List.mem_singleton, List.mem_nil_iff,
    or_false, or_self] at hu
  subst hu
  refine ⟨⟨Nat.le_refl _, fun hc => absurd hc (by decide)⟩, fun _ _ _ _ hc => absurd hc (by decide)⟩

/-- `clone` allocates one `DB` and one `search`, wired to each other, and
touches nothing else. -/
theorem clone_spec (P : List (Nat × Nat)) (h : Heap) (t : Nat) (g : Good P h t) :
    ∃ dn sn, DB.clone h t = some ({ dbs := h.dbs ++ [dn], searches := h.searches ++ [sn],
                                    arrays := h.arrays }, h.dbs.length, h.searches.length) ∧
      dn.search = some h.searches.length ∧ sn.db = some h.dbs.length ∧
      dn.RowsAffected = 0 ∧
      (∀ d, h.dbs[t]? = some d → dn.Error = d.Error ∧ dn.Value = d.Value ∧
        dn.Callbacks = d.Callbacks ∧ dn.db = d.db) ∧
      (∀ u ∈ sn.slices, u.wf h ∧ u.safe P) ∧
      (sn.slices = search.fresh.slices ∨
        ∃ (q : Nat) (sr : Search), h.searches[q]? = some sr ∧ sn.slices = sr.slices) := by
  obtain ⟨d, hd, hq⟩ := g
  cases hs : d.search with
  | none =>
    refine ⟨DB.mk d.Value d.Error 0 d.db d.logger 0 (some h.searches.length) d.values d.Callbacks,
      { search.fresh with db := some h.dbs.length }, ?_, rfl, rfl, rfl, ?_,
      fresh_slices P h _, Or.inl rfl⟩
    · simp [DB.clone, hd, hs, Heap.setDB, Heap.setSearch]
    · intro d' hd'; rw [hd] at hd'; cases hd'; exact ⟨rfl, rfl, rfl, rfl⟩
  | some q =>
    obtain ⟨sr, hsr, hu⟩ := hq q hs
    refine ⟨DB.mk d.Value d.Error 0 d.db d.logger 0 (some h.searches.length) d.values d.Callbacks,
      { sr with db := some h.dbs.length }, ?_, rfl, rfl, rfl, ?_, hu,
      Or.inr ⟨q, sr, hsr, rfl⟩⟩
    · simp [DB.clone, hd, hs, search.clone, hsr, Heap.setDB, Heap.setSearch]
    · intro d' hd'; rw [hd] at hd'; cases hd'; exact ⟨rfl, rfl, rfl, rfl⟩

theorem empty_ok (P : List (Nat × Nat)) (h : Heap) : Slice.empty.wf h ∧ Slice.empty.safe P :=
  ⟨⟨Nat.le_refl _, fun hc => absurd hc (by decide)⟩, fun _ _ _ _ hc => absurd hc (by decide)⟩

theorem slices_keep {P : List (Nat × Nat)} {h : Heap} {sn sn' : Search}
    (hsub : ∀ v ∈ sn'.slices, v = Slice.empty ∨ v ∈ sn.slices)
    (hok : ∀ u ∈ sn.slices, u.wf h ∧ u.safe P) :
    ArrExt P h h ∧ ∀ u ∈ sn'.slices, u.wf h ∧ u.safe P := by
  refine ⟨arrExt_refl P h, fun u hu => ?_⟩
  rcases hsub u hu with rfl | hm
  · exact empty_ok P h
  · exact hok u hm

theorem slices_append {P : List (Nat × Nat)} {h : Heap} {sn sn' : Search} (grow : Nat → Nat)
    (u0 : Slice) (e : Elem) (hP : Pwf P h) (h0 : u0.wf h ∧ u0.safe P)
    (hsub : ∀ v ∈ sn'.slices, v = (h.append grow u0 e).2 ∨ v ∈ sn.slices)
    (hok : ∀ u ∈ sn.slices, u.wf h ∧ u.safe P) :
    ArrExt P h (h.append grow u0 e).1 ∧
      ∀ u ∈ sn'.slices, u.wf (h.append grow u0 e).1 ∧ u.safe P := by
  obtain ⟨_, _, hE, hw, hs⟩ := append_frame grow P h u0 e hP h0.1 h0.2
  refine ⟨hE, fun u hu => ?_⟩
  rcases hsub u hu with rfl | hm
  · exact ⟨hw, hs⟩
  · exact ⟨slice_wf_mono hE (hok u hm).1, (hok u hm).2⟩

theorem slicesTidy_mono {P : List (Nat × Nat)} {h h' : Heap} (e : ArrExt P h h') {l : List Slice}
    (t : SlicesTidy h l) : SlicesTidy h' l :=
  ⟨fun u hu => slice_wf_mono e (t.1 u hu), t.2⟩

theorem slicesTidy_congr {h h' : Heap} (e : h'.arrays = h.arrays) {l : List Slice}
    (t : SlicesTidy h l) : SlicesTidy h' l :=
  ⟨fun u hu => slice_wf_congr e (t.1 u hu), t.2⟩

theorem getElem?_set_cases {l : List Slice} {i a : Nat} {x u : Slice}
    (h : (l.set i x)[a]? = some u) : (a = i ∧ u = x) ∨ (a ≠ i ∧ l[a]? = some u) := by
  rw [List.getElem?_set] at h
  by_cases hia : i = a
  · subst hia
    left
    by_cases hl : i < l.length
    · simp [hl] at h; exact ⟨rfl, h.symm⟩
    · simp [hl] at h
  · right
    simp [hia] at h
    exact ⟨fun e => hia e.symm, h⟩

/-- Replacing the `i`-th slice by the result of appending to it (or to a slice
without spare capacity) keeps the slices tidy. -/
theorem set_tidy_append (grow : Nat → Nat) (h : Heap) (l : List Slice) (i : Nat) (u : Slice)
    (e : Elem) (t : SlicesTidy h l) (hu : u.wf h) (hi : u.len < u.cap → l[i]? = some u) :
    SlicesTidy (h.append grow u e).1 (l.set i (h.append grow u e).2) := by
  obtain ⟨_, _, hE, hw, _⟩ :=
    append_frame grow [] h u e (fun _ _ hm => absurd hm (by simp)) hu
      (fun _ _ hm => absurd hm (by simp))
  have key : ∀ b v, b ≠ i → l[b]? = some v → 0 < (h.append grow u e).2.cap → 0 < v.cap →
      (h.append grow u e).2.arr ≠ v.arr := by
    intro b v hb hv hc hvc
    by_cases hlt : u.len < u.cap
    · rw [append_inplace grow h u e hlt] at hc ⊢
      exact t.2 i b u v (hi hlt) hv (fun e => hb e.symm) hc hvc
    · rw [append_grow grow h u e hlt]
      obtain ⟨_, hx⟩ := List.getElem?_eq_some.1 hv
      have hvm : v ∈ l := hx ▸ List.getElem_mem _
      have := ((t.1 v hvm).2 hvc).1
      show h.arrays.length ≠ v.arr
      omega
  refine ⟨fun v hv => ?_, fun a b u1 v1 ha hb hab hc1 hc2 => ?_⟩
  · rcases List.mem_or_eq_of_mem_set hv with hm | rfl
    · exact slice_wf_mono hE (t.1 v hm)
    · exact hw
  · rcases getElem?_set_cases ha with ⟨rfl, rfl⟩ | ⟨ha1, ha2⟩
    · rcases getElem?_set_cases hb with ⟨hb1, _⟩ | ⟨hb1, hb2⟩
      · exact absurd hb1.symm hab
      · exact key b v1 hb1 hb2 hc1 hc2
    · rcases getElem?_set_cases hb with ⟨rfl, rfl⟩ | ⟨_, hb2⟩
      · exact fun e => key a u1 ha1 ha2 hc2 hc1 e.symm
      · exact t.2 a b u1 v1 ha2 hb2 hab hc1 hc2

/-- Replacing the `i`-th slice by the empty slice keeps the slices tidy. -/
theorem set_tidy_empty (h : Heap) (l : List Slice) (i : Nat) (t : SlicesTidy h l) :
    SlicesTidy h (l.set i Slice.empty) := by
  refine ⟨fun v hv => ?_, fun a b u1 v1 ha hb hab hc1 hc2 => ?_⟩
  · rcases List.mem_or_eq_of_mem_set hv with hm | rfl
    · exact t.1 v hm
    · exact (empty_ok [] h).1
  · rcases getElem?_set_cases ha with ⟨rfl, rfl⟩ | ⟨_, ha2⟩
    · exact absurd hc1 (by decide)
    · rcases getElem?_set_cases hb with ⟨rfl, rfl⟩ | ⟨_, hb2⟩
      · exact absurd hc2 (by decide)
      · exact t.2 a b u1 v1 ha2 hb2 hab hc1 hc2

/-- Every method of `*search` rewrites the object it is called on, may extend
the arrays, and changes nothing else; the slices it leaves stay well formed and
safe. -/
theorem apply_spec (grow : Nat → Nat) (P : List (Nat × Nat)) (h : Heap) (p : Nat) (sn : Search)
    (op : SOp) (hs : h.searches[p]? = some sn) :
    ∃ hA sn', search.apply grow h p op = some (hA.setSearch p sn', p) ∧
      hA.dbs = h.dbs ∧ hA.searches = h.searches ∧ sn'.db = sn.db ∧
      (Pwf P h → (∀ u ∈ sn.slices, u.wf h ∧ u.safe P) →
        ArrExt P h hA ∧ ∀ u ∈ sn'.slices, u.wf hA ∧ u.safe P) ∧
      (SlicesTidy h sn.slices → SlicesTidy hA sn'.slices) := by
  cases op with
  | Where q vs =>
    refine ⟨(h.append grow sn.whereConditions (Elem.cond ⟨q, vs⟩)).1,
      { sn with whereConditions := (h.append grow sn.whereConditions (Elem.cond ⟨q, vs⟩)).2 },
      by simp [search.apply, search.Where, hs], (append_frame_dbs grow h _ _).1,
      (append_frame_dbs grow h _ _).2, rfl, fun hP hok => ?_, fun ht => ?_⟩
    · exact slices_append grow _ _ hP (hok _ (by simp [Search.slices]))
        (by simp [Search.slices]) hok
    · exact set_tidy_append grow h sn.slices 0 sn.whereConditions _ ht
        (ht.1 _ (by simp [Search.slices])) (fun _ => rfl)
  | Or q vs =>
    refine ⟨(h.append grow sn.orConditions (Elem.cond ⟨q, vs⟩)).1,
      { sn with orConditions := (h.append grow sn.orConditions (Elem.cond ⟨q, vs⟩)).2 },
      by simp [search.apply, search.Or, hs], (append_frame_dbs grow h _ _).1,
      (append_frame_dbs grow h _ _).2, rfl, fun hP hok => ?_, fun ht => ?_⟩
    · exact slices_append grow _ _ hP (hok _ (by simp [Search.slices]))
        (by simp [Search.slices]) hok
    · exact set_tidy_append grow h sn.slices 1 sn.orConditions _ ht
        (ht.1 _ (by simp [Search.slices])) (fun _ => rfl)
  | Not q vs =>
    refine ⟨(h.append grow sn.notConditions (Elem.cond ⟨q, vs⟩)).1,
      { sn with notConditions := (h.append grow sn.notConditions (Elem.cond ⟨q, vs⟩)).2 },
      by simp [search.apply, search.Not, hs], (append_frame_dbs grow h _ _).1,
      (append_frame_dbs grow h _ _).2, rfl, fun hP hok => ?_, fun ht => ?_⟩
    · exact slices_append grow _ _ hP (hok _ (by simp [Search.slices]))
        (by simp [Search.slices]) hok
    · exact set_tidy_append grow h sn.slices 2 sn.notConditions _ ht
        (ht.1 _ (by simp [Search.slices])) (fun _ => rfl)
  | Having q vs =>
    refine ⟨(h.append grow sn.havingConditions (Elem.cond ⟨q, vs⟩)).1,
      { sn with havingConditions := (h.append grow sn.havingConditions (Elem.cond ⟨q, vs⟩)).2 },
      by simp [search.apply, search.Having, hs], (append_frame_dbs grow h _ _).1,
      (append_frame_dbs grow h _ _).2, rfl, fun hP hok => ?_, fun ht => ?_⟩
    · exact slices_append grow _ _ hP (hok _ (by simp [Search.slices]))
        (by simp [Search.slices]) hok
    · exact set_tidy_append grow h sn.slices 3 sn.havingConditions _ ht
        (ht.1 _ (by simp [Search.slices])) (fun _ => rfl)
  | Joins q vs =>
    refine ⟨(h.append grow sn.joinConditions (Elem.cond ⟨Any.str q, vs⟩)).1,
      { sn with joinConditions := (h.append grow sn.joinConditions (Elem.cond ⟨Any.str q, vs⟩)).2 },
      by simp [search.apply, search.Joins, hs], (append_frame_dbs grow h _ _).1,
      (append_frame_dbs grow h _ _).2, rfl, fun hP hok => ?_, fun ht => ?_⟩
    · exact slices_append grow _ _ hP (hok _ (by simp [Search.slices]))
        (by simp [Search.slices]) hok
    · exact set_tidy_append grow h sn.slices 4 sn.joinConditions _ ht
        (ht.1 _ (by simp [Search.slices])) (fun _ => rfl)
  | Order v r =>
    by_cases hr : (decide (r.length > 0) && r.headD false) = true
    · by_cases hv : v.present = true
      · refine ⟨(h.append grow Slice.empty (Elem.val v)).1,
          { sn with orders := (h.append grow Slice.empty (Elem.val v)).2 },
          ?_, (append_frame_dbs grow h _ _).1,
          (append_frame_dbs grow h _ _).2, rfl, fun hP hok => ?_, fun ht => ?_⟩
        · simp only [search.apply, search.Order, hs, Option.bind_eq_bind, Option.some_bind,
            if_pos hr, if_pos hv]
        · exact slices_append grow _ _ hP (empty_ok P h) (by simp [Search.slices]) hok
        · exact set_tidy_append grow h sn.slices 5 Slice.empty _ ht (empty_ok [] h).1
            (fun hc => absurd hc (by decide))
      · refine ⟨h, { sn with orders := Slice.empty }, ?_, rfl, rfl, rfl, fun _ hok => ?_,
          fun ht => set_tidy_empty h sn.slices 5 ht⟩
        · simp only [search.apply, search.Order, hs, Option.bind_eq_bind, Option.some_bind,
            if_pos hr, if_neg hv]
        · exact slices_keep (by simp [Search.slices]) hok
    · by_cases hv : v.present = true
      · refine ⟨(h.append grow sn.orders (Elem.val v)).1,
          { sn with orders := (h.append grow sn.orders (Elem.val v)).2 },
          ?_, (append_frame_dbs grow h _ _).1,
          (append_frame_dbs grow h _ _).2, rfl, fun hP hok => ?_, fun ht => ?_⟩
        · simp only [search.apply, search.Order, hs, Option.bind_eq_bind, Option.some_bind,
            if_neg hr, if_pos hv]
        · exact slices_append grow _ _ hP (hok _ (by simp [Search.slices]))
            (by simp [Search.slices]) hok
        · exact set_tidy_append grow h sn.slices 5 sn.orders _ ht
            (ht.1 _ (by simp [Search.slices])) (fun _ => rfl)
      · refine ⟨h, sn, ?_, rfl, rfl, rfl, fun _ hok => ⟨arrExt_refl P h, hok⟩, id⟩
        simp only [search.apply, search.Order, hs, Option.bind_eq_bind, Option.some_bind,
            if_neg hr, if_neg hv]
  | Select q =>
    exact ⟨h, { sn with selects := q }, by simp [search.apply, search.Select, hs], rfl, rfl, rfl,
      fun _ hok => ⟨arrExt_refl P h, hok⟩, id⟩
  | Omit cs =>
    exact ⟨h, { sn with omits := cs }, by simp [search.apply, search.Omit, hs], rfl, rfl, rfl,
      fun _ hok => ⟨arrExt_refl P h, hok⟩, id⟩
  | Limit l =>
    exact ⟨h, { sn with limit := l }, by simp [search.apply, search.Limit, hs], rfl, rfl, rfl,
      fun _ hok => ⟨arrExt_refl P h, hok⟩, id⟩
  | Offset o =>
    exact ⟨h, { sn with offset := o }, by simp [search.apply, search.Offset, hs], rfl, rfl, rfl,
      fun _ hok => ⟨arrExt_refl P h, hok⟩, id⟩
  | Group q =>
    exact ⟨h, { sn with group := q }, by simp [search.apply, search.Group, hs], rfl, rfl, rfl,
      fun _ hok => ⟨arrExt_refl P h, hok⟩, id⟩
  | Table n =>
    exact ⟨h, { sn with tableName := n }, by simp [search.apply, search.Table, hs], rfl, rfl,
      rfl, fun _ hok => ⟨arrExt_refl P h, hok⟩, id⟩
  | unscoped =>
    exact ⟨h, { sn with Unscoped := true }, by simp [search.apply, search.unscoped, hs], rfl,
      rfl, rfl, fun _ hok => ⟨arrExt_refl P h, hok⟩, id⟩
  | Raw b =>
    exact ⟨h, { sn with raw := b }, by simp [search.apply, search.Raw, hs], rfl, rfl, rfl,
      fun _ hok => ⟨arrExt_refl P h, hok⟩, id⟩

theorem stepOK_apply (grow : Nat → Nat) (P : List (Nat × Nat)) (op : SOp) :
    StepOK P (fun h p => search.apply grow h p op) := by
  intro h p sn hs
  obtain ⟨hA, sn', e, hd, hse, hdb, hk, ht⟩ := apply_spec grow P h p sn op hs
  refine ⟨hA.setSearch p sn', sn', e, hd, ?_, hdb, fun hP hok => ?_,
    fun t => slicesTidy_congr rfl (ht t)⟩
  · show hA.searches.set p sn' = _
    rw [hse]
  · obtain ⟨hE, hok'⟩ := hk hP hok
    exact ⟨arrExt_trans hE (arrExt_of_eq P _ _ rfl),
      fun u hu => ⟨slice_wf_congr rfl (hok' u hu).1, (hok' u hu).2⟩⟩

theorem stepOK_comp {P : List (Nat × Nat)} {F G : Heap → Nat → Option (Heap × Nat)}
    (hF : StepOK P F) (hG : StepOK P G) :
    StepOK P (fun h p => (F h p).bind (fun x => G x.1 x.2)) := by
  intro h p sn hs
  obtain ⟨h1, sn1, e1, hd1, hs1, hdb1, hk1, ht1⟩ := hF h p sn hs
  have hp : p < h.searches.length := (List.getElem?_eq_some.1 hs).1
  have hs1' : h1.searches[p]? = some sn1 := by
    rw [hs1]; exact List.getElem?_set_self hp
  obtain ⟨h2, sn2, e2, hd2, hs2, hdb2, hk2, ht2⟩ := hG h1 p sn1 hs1'
  refine ⟨h2, sn2, ?_, by rw [hd2, hd1], ?_, by rw [hdb2, hdb1], fun hP hok => ?_,
    fun t => ht2 (ht1 t)⟩
  · show (F h p).bind _ = _
    rw [e1]; exact e2
  · rw [hs2, hs1, List.set_set]
  · obtain ⟨hE1, hok1⟩ := hk1 hP hok
    obtain ⟨hE2, hok2⟩ := hk2 (pwf_mono hE1 hP) hok1
    exact ⟨arrExt_trans hE1 hE2, hok2⟩

/-- Each fluent method of `*DB` is `fluent` over methods of `*search`. -/
theorem call_fluent (grow : Nat → Nat) (P : List (Nat × Nat)) (c : Call) :
    ∃ F, StepOK P F ∧ ∀ h s, DB.call grow h s c = fluent F h s := by
  cases c with
  | Where q a => exact ⟨_, stepOK_apply grow P (SOp.Where q a), fun _ _ => rfl⟩
  | Or q a => exact ⟨_, stepOK_apply grow P (SOp.Or q a), fun _ _ => rfl⟩
  | Not q a => exact ⟨_, stepOK_apply grow P (SOp.Not q a), fun _ _ => rfl⟩
  | Limit l => exact ⟨_, stepOK_apply grow P (SOp.Limit l), fun _ _ => rfl⟩
  | Offset o => exact ⟨_, stepOK_apply grow P (SOp.Offset o), fun _ _ => rfl⟩
  | Order v r => exact ⟨_, stepOK_apply grow P (SOp.Order v r), fun _ _ => rfl⟩
  | Select q => exact ⟨_, stepOK_apply grow P (SOp.Select q), fun _ _ => rfl⟩
  | Omit cs => exact ⟨_, stepOK_apply grow P (SOp.Omit cs), fun _ _ => rfl⟩
  | Table n => exact ⟨_, stepOK_apply grow P (SOp.Table n), fun _ _ => rfl⟩
  | Group q => exact ⟨_, stepOK_apply grow P (SOp.Group q), fun _ _ => rfl⟩
  | Having q vs =>
    exact ⟨_, stepOK_apply grow P (SOp.Having q [Any.ofList vs]), fun _ _ => rfl⟩
  | Joins q a => exact ⟨_, stepOK_apply grow P (SOp.Joins q [Any.ofList a]), fun _ _ => rfl⟩
  | Unscoped => exact ⟨_, stepOK_apply grow P SOp.unscoped, fun _ _ => rfl⟩
  | Raw sql vs =>
    refine ⟨_, stepOK_comp (stepOK_apply grow P (SOp.Raw true))
      (stepOK_apply grow P (SOp.Where (Any.str sql) vs)), fun h s => ?_⟩
    simp only [DB.call, DB.Raw, fluent, search.apply, Option.bind_eq_bind]
    cases DB.clone h s with
    | none => rfl
    | some x =>
      simp only [Option.some_bind]
      cases search.Raw x.1 x.2.2 true with
      | none => rfl
      | some y => rfl

/-- One fluent call on a good Session `t`: it returns the freshly allocated
Session `h.dbs.length`, extends the heap, and the new Session is good and is
the back-reference of its own criteria. -/
theorem fluent_step {P : List (Nat × Nat)} {F : Heap → Nat → Option (Heap × Nat)}
    (hF : StepOK P F) (h : Heap) (t : Nat) (hP : Pwf P h) (g : Good P h t) :
    ∃ h', fluent F h t = some (h', h.dbs.length) ∧ Ext P h h' ∧ Good P h' h.dbs.length ∧
      h'.backRef h.dbs.length = some h.dbs.length ∧ h'.dbs.length = h.dbs.length + 1 ∧
      (h.tidy → h'.tidy) := by
  obtain ⟨dn, sn, hc, hdn, hsn, _, _, hok, hsl⟩ := clone_spec P h t g
  have hs1 : (h.searches ++ [sn])[h.searches.length]? = some sn := List.getElem?_concat_length _ _
  obtain ⟨h2, sn', e2, hd2, hs2, hdb2, hk2, ht2⟩ :=
    hF { dbs := h.dbs ++ [dn], searches := h.searches ++ [sn], arrays := h.arrays }
      h.searches.length sn hs1
  have hP1 : Pwf P { dbs := h.dbs ++ [dn], searches := h.searches ++ [sn], arrays := h.arrays } :=
    hP
  obtain ⟨hE, hok2⟩ := hk2 hP1 (fun u hu => ⟨slice_wf_congr rfl (hok u hu).1, (hok u hu).2⟩)
  have hd2' : h2.dbs = h.dbs ++ [dn] := hd2
  have hs2' : h2.searches = h.searches ++ [sn'] := by
    rw [hs2]; show (h.searches ++ [sn]).set h.searches.length sn' = _
    simp
  have hq : h2.searches[h.searches.length]? = some sn' := by
    rw [hs2']; exact List.getElem?_concat_length _ _
  have hdq : h2.dbs[h.dbs.length]? = some dn := by
    rw [hd2']; exact List.getElem?_concat_length _ _
  have hback : sn'.db = some h.dbs.length := by rw [hdb2, hsn]
  have hEx : ArrExt P h h2 := arrExt_trans (arrExt_of_eq P h _ rfl) hE
  refine ⟨h2, ?_, ⟨⟨[dn], hd2'⟩, ⟨[sn'], hs2'⟩, ?_⟩, ?_, ?_, ?_, fun ht => ⟨?_, ?_⟩⟩
  · simp only [fluent, hc, e2, Option.bind_eq_bind, Option.some_bind, search.dbOf, hq, hback]
  · exact arrExt_trans (arrExt_of_eq P h _ rfl) hE
  · refine ⟨dn, hdq, fun q hq' => ?_⟩
    rw [hdn] at hq'; cases hq'
    exact ⟨sn', hq, hok2⟩
  · rw [backRef_eq_some]
    exact ⟨dn, _, sn', hdq, hdn, hq, hback⟩
  · rw [hd2']; simp
  · intro q sr hsr
    rw [hs2'] at hsr
    by_cases hql : q < h.searches.length
    · rw [List.getElem?_append_left hql] at hsr
      exact slicesTidy_mono hEx (ht.1 q sr hsr)
    · have hq0 : q = h.searches.length := by
        have := (List.getElem?_eq_some.1 hsr).1
        simp at this; omega
      subst hq0
      rw [List.getElem?_concat_length] at hsr
      cases hsr
      refine ht2 (slicesTidy_congr rfl ?_)
      rcases hsl with e | ⟨q', sr', hq', e⟩
      · rw [e]
        refine ⟨fun u hu => (fresh_slices [] h none u hu).1, fun i j u v hi hj _ hc _ => ?_⟩
        have hu : u ∈ search.fresh.slices := by
          obtain ⟨_, hx⟩ := List.getElem?_eq_some.1 hi
          exact hx ▸ List.getElem_mem _
        simp only [Search.slices, search.fresh, List.mem_cons, List.mem_singleton,
          List.mem_nil_iff, or_false, or_self] at hu
        subst hu
        exact absurd hc (by decide)
      · rw [e]; exact ht.1 q' sr' hq'
  · intro s d q hd hsq
    rw [hd2'] at hd
    rw [hs2']
    simp only [List.length_append, List.length_singleton]
    by_cases hsl' : s < h.dbs.length
    · rw [List.getElem?_append_left hsl'] at hd
      have := ht.2 s d q hd hsq
      omega
    · have hs0 : s = h.dbs.length := by
        have := (List.getElem?_eq_some.1 hd).1
        simp at this; omega
      subst hs0
      rw [List.getElem?_concat_length] at hd
      cases hd
      rw [hdn] at hsq; cases hsq
      omega

theorem call_step (grow : Nat → Nat) {P : List (Nat × Nat)} (h : Heap) (t : Nat) (c : Call)
    (hP : Pwf P h) (g : Good P h t) :
    ∃ h', DB.call grow h t c = some (h', h.dbs.length) ∧ Ext P h h' ∧ Good P h' h.dbs.length ∧
      h'.backRef h.dbs.length = some h.dbs.length ∧ h'.dbs.length = h.dbs.length + 1 ∧
      (h.tidy → h'.tidy) := by
  obtain ⟨F, hF, e⟩ := call_fluent grow P c
  rw [e]
  exact fluent_step hF h t hP g

theorem getD_mem_cons {α : Type} (s : α) (rets : List α) (i : Nat) :
    (s :: rets).getD i s ∈ s :: rets := by
  rw [List.getD_eq_getElem?_getD]
  cases hi : (s :: rets)[i]? with
  | none => simp
  | some x =>
    obtain ⟨hl, hx⟩ := List.getElem?_eq_some.1 hi
    rw [Option.getD_some, ← hx]
    exact List.getElem_mem _

/-- The invariant of a chain of fluent calls. -/
theorem run_inv (grow : Nat → Nat) (P : List (Nat × Nat)) (s n0 : Nat) (calls : List (Nat × Call)) :
    ∀ (h : Heap) (rets : List Nat), Pwf P h → Good P h s → n0 ≤ h.dbs.length →
      (∀ r ∈ rets, Good P h r ∧ h.backRef r = some r ∧ n0 ≤ r) →
      ∃ h' rets', runCalls grow s h rets calls = some (h', rets') ∧ Ext P h h' ∧
        rets'.length = rets.length + calls.length ∧
        ∀ r ∈ rets', h'.backRef r = some r ∧ n0 ≤ r := by
  induction calls with
  | nil =>
    intro h rets _ _ _ hr
    exact ⟨h, rets, rfl, ext_refl P h, by simp, fun r hm => (hr r hm).2⟩
  | cons ic cs ih =>
    intro h rets hP hs hn hr
    obtain ⟨i, c⟩ := ic
    have hg : Good P h ((s :: rets).getD i s) := by
      rcases List.mem_cons.1 (getD_mem_cons s rets i) with e | m
      · rw [e]; exact hs
      · exact (hr _ m).1
    obtain ⟨h1, e1, hE1, hg1, hb1, hl1, _⟩ := call_step grow h _ c hP hg
    obtain ⟨h', rets', e', hE', hlen, hall⟩ :=
      ih h1 (rets ++ [h.dbs.length]) (pwf_mono hE1.2.2 hP) (good_mono hE1 hs) (by omega)
        (by
          intro r hm
          rcases List.mem_append.1 hm with m | m
          · exact ⟨good_mono hE1 (hr r m).1, backRef_mono hE1 (hr r m).2.1, (hr r m).2.2⟩
          · simp only [List.mem_singleton] at m
            subst m
            exact ⟨hg1, hb1, hn⟩)
    refine ⟨h', rets', ?_, ext_trans hE1 hE', ?_, hall⟩
    · simp only [runCalls, e1]; exact e'
    · rw [hlen]; simp; omega

theorem session_good {h : Heap} {s : Nat} (hs : h.Session s) :
    ∃ P, Pwf P h ∧ Good P h s ∧
      ∀ d q sr, h.dbs[s]? = some d → d.search = some q → h.searches[q]? = some sr →
        ∀ u ∈ sr.slices, (u.arr, u.len) ∈ P := by
  obtain ⟨d, hd, hq⟩ := hs
  cases hse : d.search with
  | none =>
    refine ⟨[], fun _ _ hm => absurd hm (by simp), ⟨d, hd, fun q hq' => ?_⟩, ?_⟩
    · rw [hse] at hq'; cases hq'
    · intro d' q _ hd' hq'; rw [hd] at hd'; cases hd'; rw [hse] at hq'; cases hq'
  | some q =>
    obtain ⟨sr, hsr, hok⟩ := hq q hse
    refine ⟨sr.prot, ?_, ⟨d, hd, fun q' hq' => ?_⟩, ?_⟩
    · intro a l hm hl
      obtain ⟨u, hu, he⟩ := List.mem_map.1 hm
      cases he
      have hw := (hok u hu).1
      exact (hw.2 (by have := hw.1; omega)).1
    · rw [hse] at hq'; cases hq'
      exact ⟨sr, hsr, hok⟩
    · intro d' q' sr' hd' hq' hsr' u hu
      rw [hd] at hd'; cases hd'; rw [hse] at hq'; cases hq'; rw [hsr] at hsr'; cases hsr'
      exact List.mem_map.2 ⟨u, hu, rfl⟩

theorem view_eq_of_ext {P : List (Nat × Nat)} {h h' : Heap} (e : ArrExt P h h') (sr : Search)
    (hm : ∀ u ∈ sr.slices, (u.arr, u.len) ∈ P) : h'.view sr = h.view sr := by
  have key : ∀ u ∈ sr.slices, h'.readSlice u = h.readSlice u :=
    fun u hu => e.2.2 u.arr u.len (hm u hu)
  unfold Heap.view
  rw [key sr.whereConditions (by simp [Search.slices]),
    key sr.orConditions (by simp [Search.slices]),
    key sr.notConditions (by simp [Search.slices]),
    key sr.havingConditions (by simp [Search.slices]),
    key sr.joinConditions (by simp [Search.slices]),
    key sr.orders (by simp [Search.slices])]

theorem criteria_eq_of_ext {P : List (Nat × Nat)} {h h' : Heap} (e : Ext P h h') {s : Nat} {d : DB}
    (hd : h.dbs[s]? = some d)
    (hq : ∀ q, d.search = some q → ∃ sr, h.searches[q]? = some sr ∧
      ∀ u ∈ sr.slices, (u.arr, u.len) ∈ P) :
    h'.criteria s = h.criteria s := by
  unfold Heap.criteria
  rw [hd, ext_db_eq e hd]
  simp only [Option.bind_eq_bind, Option.some_bind]
  cases hse : d.search with
  | none => rfl
  | some q =>
    obtain ⟨sr, hsr, hm⟩ := hq q hse
    simp only [Option.some_bind, hsr, ext_search_eq e hsr]
    rw [view_eq_of_ext e.2.2 sr hm]

/-! ## Sessions built through the fluent surface are well formed -/

theorem good_of_tidy {h : Heap} {t : Nat} (ht : h.tidy) (hl : t < h.dbs.length) : Good [] h t := by
  refine ⟨h.dbs[t], List.getElem?_eq_getElem hl, fun q hq => ?_⟩
  have hq' := ht.2 t _ q (List.getElem?_eq_getElem hl) hq
  refine ⟨h.searches[q], List.getElem?_eq_getElem hq', fun u hu => ?_⟩
  exact ⟨(ht.1 q _ (List.getElem?_eq_getElem hq')).1 u hu, fun _ _ hm => absurd hm (by simp)⟩

/-- In a tidy heap every allocated Session is well formed. -/
theorem session_of_tidy {h : Heap} {s : Nat} (ht : h.tidy) (hl : s < h.dbs.length) :
    h.Session s := by
  refine ⟨h.dbs[s], List.getElem?_eq_getElem hl, fun q hq => ?_⟩
  have hq' := ht.2 s _ q (List.getElem?_eq_getElem hl) hq
  obtain ⟨hw, hdis⟩ := ht.1 q _ (List.getElem?_eq_getElem hq')
  refine ⟨h.searches[q], List.getElem?_eq_getElem hq', fun u hu => ⟨hw u hu, ?_⟩⟩
  intro a l hm hau hlt
  obtain ⟨v, hv, he⟩ := List.mem_map.1 hm
  cases he
  obtain ⟨i, hi⟩ := List.getElem?_of_mem hu
  obtain ⟨j, hj⟩ := List.getElem?_of_mem hv
  by_cases hij : i = j
  · subst hij
    rw [hi] at hj; cases hj
    exact Nat.le_refl _
  · rcases Nat.eq_zero_or_pos v.cap with hc | hc
    · have := (hw v hv).1
      omega
    · exact absurd hau (hdis i j u v hi hj hij (by omega) hc)

/-- A chain of fluent calls keeps a tidy heap tidy, and always returns. -/
theorem run_tidy (grow : Nat → Nat) (s : Nat) (calls : List (Nat × Call)) :
    ∀ (h : Heap) (rets : List Nat), h.tidy → s < h.dbs.length →
      (∀ r ∈ rets, r < h.dbs.length) →
      ∃ h' rets', runCalls grow s h rets calls = some (h', rets') ∧ h'.tidy ∧
        h.dbs.length ≤ h'.dbs.length := by
  induction calls with
  | nil => intro h rets ht _ _; exact ⟨h, rets, rfl, ht, Nat.le_refl _⟩
  | cons ic cs ih =>
    intro h rets ht hs hr
    obtain ⟨i, c⟩ := ic
    have hl : (s :: rets).getD i s < h.dbs.length := by
      rcases List.mem_cons.1 (getD_mem_cons s rets i) with e | m
      · rw [e]; exact hs
      · exact hr _ m
    obtain ⟨h1, e1, _, _, _, hl1, ht1⟩ :=
      call_step grow h _ c (fun _ _ hm => absurd hm (by simp)) (good_of_tidy ht hl)
    obtain ⟨h', rets', e', ht', hle⟩ := ih h1 (rets ++ [h.dbs.length]) (ht1 ht) (by omega)
      (by
        intro r hm
        rcases List.mem_append.1 hm with m | m
        · have := hr r m; omega
        · simp only [List.mem_singleton] at m; omega)
    refine ⟨h', rets', ?_, ht', by omega⟩
    simp only [runCalls, e1]; exact e'

theorem heap0_tidy : heap0.tidy :=
  ⟨fun q sr hq => by simp [heap0] at hq, fun s d q hd hq => by
    have hs : s = 0 := by
      have := (List.getElem?_eq_some.1 hd).1
      simpa [heap0] using this
    subst hs
    simp [heap0, zeroDB] at hd
    subst hd
    cases hq⟩

/-- Every Session of every heap reached from `heap0` (one Session, as `Open`
returns it) by fluent calls is well formed: the hypothesis of C1 holds of every
Session the fluent surface can build. -/
theorem session_of_reachable (grow : Nat → Nat) (calls : List (Nat × Call)) :
    ∃ h rets, runCalls grow 0 heap0 [] calls = some (h, rets) ∧
      ∀ s, s < h.dbs.length → h.Session s := by
  obtain ⟨h, rets, e, ht, _⟩ :=
    run_tidy grow 0 calls heap0 [] heap0_tidy (by decide) (fun r hr => absurd hr (by simp))
  exact ⟨h, rets, e, fun s hs => session_of_tidy ht hs⟩

/-! ## C1 -/

/-- C1: for every well-formed Session `s` and every finite sequence of fluent
query-shaping calls made on `s` or on Sessions derived from it, all calls
return, the `DB` object of `s` and its `search` object are unchanged, the
SearchCriteria held by `s` (every list by its elements, and every scalar) has
the same value afterwards, and each returned Session is distinct from `s` and
is the back-reference of its own criteria. -/
theorem C1_parent_criteria_unchanged (grow : Nat → Nat) (h : Heap) (s : Nat)
    (calls : List (Nat × Call)) (hs : h.Session s) :
    ∃ h' rets, runCalls grow s h [] calls = some (h', rets) ∧ rets.length = calls.length ∧
      h'.dbs[s]? = h.dbs[s]? ∧
      (∀ d q, h.dbs[s]? = some d → d.search = some q → h'.searches[q]? = h.searches[q]?) ∧
      h'.criteria s = h.criteria s ∧
      ∀ r ∈ rets, r ≠ s ∧ h'.backRef r = some r := by
  obtain ⟨P, hP, hg, hm⟩ := session_good hs
  obtain ⟨d, hd, hq⟩ := hs
  have hlt : s < h.dbs.length := (List.getElem?_eq_some.1 hd).1
  obtain ⟨h', rets, e, hE, hlen, hall⟩ :=
    run_inv grow P s h.dbs.length calls h [] hP hg (Nat.le_refl _) (fun r hr => absurd hr (by simp))
  refine ⟨h', rets, e, by simpa using hlen, ?_, ?_, ?_, ?_⟩
  · rw [hd]; exact ext_db_eq hE hd
  · intro d' q hd' hq'
    rw [hd] at hd'; cases hd'
    obtain ⟨sr, hsr, _⟩ := hq q hq'
    rw [hsr]; exact ext_search_eq hE hsr
  · refine criteria_eq_of_ext hE hd (fun q hq' => ?_)
    obtain ⟨sr, hsr, _⟩ := hq q hq'
    exact ⟨sr, hsr, hm d q sr hd hq' hsr⟩
  · intro r hr
    obtain ⟨hb, hn⟩ := hall r hr
    exact ⟨by omega, hb⟩

/-- Witness of C1 on `heapW` and `callsW`. -/
theorem C1_parent_criteria_unchanged_witness :
    heapW.Session 0 ∧
    ∃ h' rets, runCalls growDouble 0 heapW [] callsW = some (h', rets) ∧
      rets.length = callsW.length ∧
      h'.dbs[0]? = heapW.dbs[0]? ∧
      (∀ d q, heapW.dbs[0]? = some d → d.search = some q →
        h'.searches[q]? = heapW.searches[q]?) ∧
      h'.criteria 0 = heapW.criteria 0 ∧
      ∀ r ∈ rets, r ≠ 0 ∧ h'.backRef r = some r :=
  have hs : heapW.Session 0 := by
    refine ⟨_, rfl, fun q hq => ?_⟩
    cases hq
    refine ⟨_, rfl, fun u hu => ?_⟩
    simp only [Search.slices, search.fresh, List.mem_cons, List.mem_singleton,
      List.mem_nil_iff, or_false] at hu
    refine ⟨?_, fun a l hm => ?_⟩
    · rcases hu with rfl | rfl | rfl | rfl | rfl | rfl <;> exact ⟨by decide, by decide⟩
    · simp only [Search.prot, Search.slices, search.fresh, Slice.empty, List.map_cons,
        List.map_nil, List.mem_cons, List.mem_singleton, List.mem_nil_iff, or_false,
        Prod.mk.injEq] at hm
      rcases hu with rfl | rfl | rfl | rfl | rfl | rfl <;>
        rcases hm with ⟨rfl, rfl⟩ | ⟨rfl, rfl⟩ | ⟨rfl, rfl⟩ | ⟨rfl, rfl⟩ | ⟨rfl, rfl⟩ | ⟨rfl, rfl⟩ <;>
        decide
  ⟨hs, C1_parent_criteria_unchanged growDouble heapW 0 callsW hs⟩

/-! ## C2 -/

/-- C2 (the code breaks it): with `p := db.Where("x1").Where("x2").Where("x3")`,
whose where-slice has `len = 3`, `cap = 4`, `a := p.Where("a")` shows
`[x1, x2, x3, a]` right after its derivation, and after `b := p.Where("b")` the
same Session `a` shows `[x1, x2, x3, b]`: `b`'s append wrote into the array
that `p`, `a` and `b` share. -/
theorem C2_sibling_append_overwrites :
    whereAfter chainA 4 = some [Elem.cond ⟨Any.str "x1", []⟩, Elem.cond ⟨Any.str "x2", []⟩,
      Elem.cond ⟨Any.str "x3", []⟩, Elem.cond ⟨Any.str "a", []⟩] ∧
    whereAfter chainAB 4 = some [Elem.cond ⟨Any.str "x1", []⟩, Elem.cond ⟨Any.str "x2", []⟩,
      Elem.cond ⟨Any.str "x3", []⟩, Elem.cond ⟨Any.str "b", []⟩] ∧
    whereAfter chainAB 5 = some [Elem.cond ⟨Any.str "x1", []⟩, Elem.cond ⟨Any.str "x2", []⟩,
      Elem.cond ⟨Any.str "x3", []⟩, Elem.cond ⟨Any.str "b", []⟩] := by
  refine ⟨?_, ?_, ?_⟩ <;> rfl

/-! ## C3 -/

theorem present_of_ne {v : Any} (h1 : v ≠ Any.nil) (h2 : v ≠ Any.str "") : v.present = true := by
  cases v with
  | nil => exact absurd rfl h1
  | str s =>
    have : s ≠ "" := fun e => h2 (by rw [e])
    simpa [Any.present] using this
  | bool b => rfl
  | int n => rfl
  | vnil => rfl
  | vcons a b => rfl

theorem setSearch_self {h : Heap} {p : Nat} {c : Search} (hc : h.searches[p]? = some c) :
    h.setSearch p c = h := by
  obtain ⟨hl, he⟩ := List.getElem?_eq_some.1 hc
  unfold Heap.setSearch
  have : h.searches.set p c = h.searches := by
    apply List.ext_getElem?
    intro n
    rw [List.getElem?_set]
    by_cases hn : p = n
    · subst hn; simp [hl, hc]
    · simp [hn]
  rw [this]

theorem getElem?_setSearch {h : Heap} {p : Nat} {c c' : Search} (hc : h.searches[p]? = some c) :
    (h.setSearch p c').searches[p]? = some c' :=
  List.getElem?_set_self (List.getElem?_eq_some.1 hc).1

/-- C3: on an allocated criteria `c` (at `p`) whose order slice is well formed,
`Order(v, true)` with `v` neither nil nor `""` leaves the order list equal to
exactly `[v]`; `Order(nil)` and `Order("")` without a reorder argument leave the
whole heap, hence every field of `c`, unchanged; and `Order(v)` without the
flag, or with it false, yields the previous order list with `v` appended. -/
theorem C3_order (grow : Nat → Nat) (h : Heap) (p : Nat) (c : Search)
    (hc : h.searches[p]? = some c) (hw : c.orders.wf h) :
    (∀ v rest, v ≠ Any.nil → v ≠ Any.str "" →
      ∃ h' c', search.Order grow h p v (true :: rest) = some (h', p) ∧
        h'.searches[p]? = some c' ∧ h'.readSlice c'.orders = [Elem.val v]) ∧
    (∀ v, v = Any.nil ∨ v = Any.str "" → search.Order grow h p v [] = some (h, p)) ∧
    (∀ v r, v ≠ Any.nil → v ≠ Any.str "" → (r = [] ∨ ∃ rest, r = false :: rest) →
      ∃ h' c', search.Order grow h p v r = some (h', p) ∧
        h'.searches[p]? = some c' ∧
        h'.readSlice c'.orders = h.readSlice c.orders ++ [Elem.val v]) := by
  refine ⟨fun v rest h1 h2 => ?_, fun v hv => ?_, fun v r h1 h2 hr => ?_⟩
  · have hp := present_of_ne h1 h2
    have hrd := append_read grow h Slice.empty (Elem.val v) (empty_ok [] h).1
    have hsr := (append_frame_dbs grow h Slice.empty (Elem.val v)).2
    refine ⟨(h.append grow Slice.empty (Elem.val v)).1.setSearch p
        { c with orders := (h.append grow Slice.empty (Elem.val v)).2 }, _, ?_,
      getElem?_setSearch (by rw [hsr]; exact hc), ?_⟩
    · have hr : (decide ((true :: rest).length > 0) && (true :: rest).headD false) = true := by
        simp
      simp only [search.Order, hc, Option.bind_eq_bind, Option.some_bind, if_pos hr, if_pos hp]
    · exact hrd
  · have hp : ¬ v.present = true := by rcases hv with rfl | rfl <;> decide
    have hr : ¬ (decide (([] : List Bool).length > 0) && ([] : List Bool).headD false) = true := by
      simp
    simp only [search.Order, hc, Option.bind_eq_bind, Option.some_bind, if_neg hr, if_neg hp]
    rw [setSearch_self hc]
  · have hp := present_of_ne h1 h2
    have hrd := append_read grow h c.orders (Elem.val v) hw
    have hsr := (append_frame_dbs grow h c.orders (Elem.val v)).2
    have hno : ¬ (decide (r.length > 0) && r.headD false) = true := by
      rcases hr with rfl | ⟨rest, rfl⟩ <;> simp
    refine ⟨(h.append grow c.orders (Elem.val v)).1.setSearch p
        { c with orders := (h.append grow c.orders (Elem.val v)).2 }, _, ?_,
      getElem?_setSearch (by rw [hsr]; exact hc), ?_⟩
    · simp only [search.Order, hc, Option.bind_eq_bind, Option.some_bind, if_neg hno, if_pos hp]
    · exact hrd

/-- Witness of C3 on the criteria of `heapW`, whose order list is `["name"]`. -/
theorem C3_order_witness :
    heapW.searches[0]? = some searchW ∧ searchW.orders.wf heapW ∧
    (∃ h' c', search.Order growDouble heapW 0 (Any.str "age") [true] = some (h', 0) ∧
      h'.searches[0]? = some c' ∧ h'.readSlice c'.orders = [Elem.val (Any.str "age")]) ∧
    search.Order growDouble heapW 0 Any.nil [] = some (heapW, 0) ∧
    search.Order growDouble heapW 0 (Any.str "") [] = some (heapW, 0) ∧
    (∃ h' c', search.Order growDouble heapW 0 (Any.str "age") [] = some (h', 0) ∧
      h'.searches[0]? = some c' ∧
      h'.readSlice c'.orders = heapW.readSlice searchW.orders ++ [Elem.val (Any.str "age")]) :=
  ⟨rfl, ⟨by decide, by decide⟩,
    (C3_order growDouble heapW 0 searchW rfl ⟨by decide, by decide⟩).1 _ [] (by decide) (by decide),
    (C3_order growDouble heapW 0 searchW rfl ⟨by decide, by decide⟩).2.1 _ (Or.inl rfl),
    (C3_order growDouble heapW 0 searchW rfl ⟨by decide, by decide⟩).2.1 _ (Or.inr rfl),
    (C3_order growDouble heapW 0 searchW rfl ⟨by decide, by decide⟩).2.2 _ [] (by decide)
      (by decide) (Or.inl rfl)⟩

/-! ## The writing processors -/

theorem execLive_trace (drv : Driver) (sc : Scope) (tr : Trace) :
    (execLive drv sc tr).2 = tr ++ [IOCall.Exec sc.SQL sc.SQLVars] := by
  unfold execLive; split <;> rfl

theorem execLive_frame (drv : Driver) (sc : Scope) (tr : Trace) :
    (execLive drv sc tr).1.SQL = sc.SQL ∧ (execLive drv sc tr).1.SQLVars = sc.SQLVars ∧
    (execLive drv sc tr).1.Value = sc.Value ∧ (execLive drv sc tr).1.Search = sc.Search := by
  unfold execLive; split <;> exact ⟨rfl, rfl, rfl, rfl⟩

theorem execLive_ok (drv : Driver) (sc : Scope) (tr : Trace) (n : Int)
    (h : drv.Exec tr sc.SQL sc.SQLVars = Except.ok n) :
    (execLive drv sc tr).1.db.RowsAffected = n ∧
    (execLive drv sc tr).1.db.Error = sc.db.Error := by
  unfold execLive; rw [h]; exact ⟨rfl, rfl⟩

theorem execLive_error (drv : Driver) (sc : Scope) (tr : Trace) (e : Err)
    (h : drv.Exec tr sc.SQL sc.SQLVars = Except.error e) :
    (execLive drv sc tr).1.db.RowsAffected = sc.db.RowsAffected ∧
    (execLive drv sc tr).1.HasError = true := by
  unfold execLive; rw [h]; exact ⟨rfl, rfl⟩

theorem execAndCount_live (drv : Driver) (sc : Scope) (tr : Trace) (h : sc.db.db.live = true) :
    execAndCount drv sc tr = some (execLive drv sc tr) := by
  unfold execAndCount; rw [if_pos h]

/-! ## C4 -/

/-- C4 (the code breaks it): on `scopeSoft`, a context with no error whose
record declares `DeletedAt` and whose criteria is not unscoped, `deleteCallBack`
commits `DELETE FROM users WHERE id = ?`, not an UPDATE of the timestamp; the
UPDATE is committed when the unscoped flag is set.  With the flag set and no
`DeletedAt` field it commits the DELETE, as claimed. -/
theorem C4_delete_branch_inverted :
    scopeSoft.HasError = false ∧ (scopeSoft.FieldByName "DeletedAt").isSome = true ∧
    scopeSoft.Search.Unscoped = false ∧
    (deleteCallBack envE drvE scopeSoft []).map (fun r => r.1.SQL) =
      some "DELETE FROM users WHERE id = ?" ∧
    (deleteCallBack envE drvE { scopeSoft with Search := { search.fresh with Unscoped := true } }
      []).map (fun r => r.1.SQL) = some "UPDATE users SET deleted_at=2024-01-01 WHERE id = ?" ∧
    (deleteCallBack envE drvE { scopeKeyOnly with Search := { search.fresh with Unscoped := true } }
      []).map (fun r => r.1.SQL) = some "DELETE FROM users WHERE id = ?" := by
  refine ⟨rfl, rfl, rfl, ?_, ?_, ?_⟩ <;> decide

/-! ## C9 -/

theorem deleteStatement_of_error (env : Collab) (sc : Scope) (h : sc.HasError = true) :
    deleteStatement env sc = sc := by
  unfold deleteStatement; simp [h]

theorem deleteStatement_db (env : Collab) (sc : Scope) : (deleteStatement env sc).db = sc.db := by
  unfold deleteStatement
  split
  · split
    · split <;> rfl
    · rfl
  · rfl

/-- C9, counterexample: on `scopeNil`, a context whose Session has no SQL
handle, `deleteCallBack` panics at `scope.db.db.Exec`: it does not return, and
no `Exec` call is made. -/
theorem C9_delete_nil_handle_counterexample :
    scopeNil.db.db = SQLHandle.none ∧ deleteCallBack envE drvE scopeNil [] = none := by
  refine ⟨rfl, rfl⟩

/-- C9, amended: for every execution context whose SQL handle is live (not
nil), with or without an error at the start, `deleteCallBack` returns and makes
exactly one call on the SQL interface, an `Exec` with the SQL text and bound
parameters the context holds at that point (and still holds afterwards); when
that call succeeds the affected-row count becomes the driver-reported count;
and when an error was already present no new SQL text was committed, so the
text and parameters executed are those held beforehand. -/
theorem C9_delete_execs_once (env : Collab) (drv : Driver) (sc : Scope) (tr : Trace)
    (hl : sc.db.db.live = true) :
    ∃ r sql vars, deleteCallBack env drv sc tr = some r ∧
      r.2 = tr ++ [IOCall.Exec sql vars] ∧ sql = r.1.SQL ∧ vars = r.1.SQLVars ∧
      (∀ n, drv.Exec tr sql vars = Except.ok n → r.1.db.RowsAffected = n) ∧
      (sc.HasError = true → sql = sc.SQL ∧ vars = sc.SQLVars) := by
  have hl' : (deleteStatement env sc).db.db.live = true := by
    rw [deleteStatement_db]; exact hl
  refine ⟨execLive drv (deleteStatement env sc) tr, (deleteStatement env sc).SQL,
    (deleteStatement env sc).SQLVars, execAndCount_live drv _ tr hl',
    execLive_trace drv _ tr, (execLive_frame drv _ tr).1.symm,
    (execLive_frame drv _ tr).2.1.symm, fun n hn => (execLive_ok drv _ tr n hn).1, ?_⟩
  intro he
  rw [deleteStatement_of_error env sc he]
  exact ⟨rfl, rfl⟩

/-- Witness of the amended C9: a context on a live handle that already carries
an error and an affected-row count of 7; the stale empty statement is executed
and the count becomes the driver's 1. -/
theorem C9_delete_execs_once_witness :
    ({ scopeKeyOnly with db := { scopeKeyOnly.db with Error := some "earlier" } } : Scope).db.db.live
      = true ∧
    ({ scopeKeyOnly with db := { scopeKeyOnly.db with Error := some "earlier" } } : Scope).HasError
      = true ∧
    ∃ r, deleteCallBack envE drvE
        { scopeKeyOnly with db := { scopeKeyOnly.db with Error := some "earlier" } } [] = some r ∧
      r.2 = [IOCall.Exec "" []] ∧ r.1.db.RowsAffected = 1 :=
  ⟨rfl, rfl,
   by
    obtain ⟨r, sql, vars, hr, ht, _, _, hn, hs⟩ := C9_delete_execs_once envE drvE
      { scopeKeyOnly with db := { scopeKeyOnly.db with Error := some "earlier" } } [] rfl
    obtain ⟨h1, h2⟩ := hs rfl
    refine ⟨r, hr, ?_, hn 1 rfl⟩
    rw [ht, h1, h2]; rfl⟩

/-! ## C5 -/

/-- C5 (the code breaks it): on `scopeKeyOnly`, a context with no error whose
record has no assignable field and whose affected-row count is 7,
`updateCallBack` commits no SQL text, yet it makes an `Exec` call, with the
empty text the context holds, and overwrites the count with the
driver-reported 1. -/
theorem C5_update_execs_without_statement :
    scopeKeyOnly.HasError = false ∧
    (∀ f ∈ scopeKeyOnly.Fields, f.IsPrimaryKey = true ∨ f.IsNormal = false) ∧
    (updateCallBack envE drvE scopeKeyOnly []).map (fun r => r.1.SQL) = some scopeKeyOnly.SQL ∧
    (updateCallBack envE drvE scopeKeyOnly []).map (fun r => r.2) = some [IOCall.Exec "" []] ∧
    scopeKeyOnly.db.RowsAffected = 7 ∧
    (updateCallBack envE drvE scopeKeyOnly []).map (fun r => r.1.db.RowsAffected) = some 1 := by
  refine ⟨rfl, by decide, by decide, by decide, rfl, by decide⟩

/-! ## C6 -/

theorem setField_frame (sc : Scope) (name : String) (v : Any) :
    (sc.setField name v).db = sc.db ∧ (sc.setField name v).SQLVars = sc.SQLVars ∧
    (sc.setField name v).SQL = sc.SQL ∧ (sc.setField name v).Search = sc.Search := by
  unfold Scope.setField; split <;> exact ⟨rfl, rfl, rfl, rfl⟩

theorem setField_fields (sc : Scope) (name : String) (v : Any) :
    ∀ f ∈ (sc.setField name v).Fields, ∃ g ∈ sc.Fields,
      f.IsPrimaryKey = g.IsPrimaryKey ∧ f.IsNormal = g.IsNormal := by
  intro f hf
  unfold Scope.setField at hf
  split at hf
  · rename_i r hr
    simp only [Scope.Fields, List.mem_map] at hf
    obtain ⟨g, hg, e⟩ := hf
    refine ⟨g, by simp only [Scope.Fields, hr]; exact hg, ?_⟩
    subst e
    split <;> exact ⟨rfl, rfl⟩
  · exact ⟨f, hf, rfl, rfl⟩

theorem stamp_frame (env : Collab) (sc : Scope) (name : String) :
    (stamp env sc name).db = sc.db ∧ (stamp env sc name).SQLVars = sc.SQLVars ∧
    (stamp env sc name).SQL = sc.SQL ∧ (stamp env sc name).Search = sc.Search := by
  unfold stamp; split
  · exact setField_frame _ _ _
  · exact ⟨rfl, rfl, rfl, rfl⟩

theorem stamp_fields (env : Collab) (sc : Scope) (name : String) :
    ∀ f ∈ (stamp env sc name).Fields, ∃ g ∈ sc.Fields,
      f.IsPrimaryKey = g.IsPrimaryKey ∧ f.IsNormal = g.IsNormal := by
  unfold stamp; split
  · exact setField_fields _ _ _
  · exact fun f hf => ⟨f, hf, rfl, rfl⟩

theorem insertFields_key_only (env : Collab) (fs : List Field)
    (hk : ∀ f ∈ fs, f.IsPrimaryKey = true) (acc : Scope × List String × List String) :
    insertFields env acc fs = acc := by
  induction fs generalizing acc with
  | nil => rfl
  | cons f rest ih =>
    obtain ⟨sc, cols, phs⟩ := acc
    have hf : f.IsPrimaryKey = true := hk f (List.mem_cons_self _ _)
    simp only [insertFields, hf, Bool.not_true, Bool.false_eq_true, if_false]
    exact ih (fun g hg => hk g (List.mem_cons_of_mem _ hg)) _

theorem insertStatement_key_only (env : Collab) (sc : Scope)
    (hk : ∀ f ∈ sc.Fields, f.IsPrimaryKey = true) :
    (insertStatement env sc).SQL =
      "INSERT INTO " ++ env.QuotedTableName (stamp env (stamp env sc "UpdatedAt") "UpdatedAt") ++
        " (" ++ ") VALUES (" ++ ")" ∧
    (insertStatement env sc).SQLVars = sc.SQLVars ∧ (insertStatement env sc).db = sc.db := by
  have hk2 : ∀ f ∈ (stamp env (stamp env sc "UpdatedAt") "UpdatedAt").Fields,
      f.IsPrimaryKey = true := by
    intro f hf
    obtain ⟨g, hg, e, _⟩ := stamp_fields env _ _ f hf
    obtain ⟨g', hg', e', _⟩ := stamp_fields env _ _ g hg
    rw [e, e']; exact hk g' hg'
  unfold insertStatement
  simp only [insertFields_key_only env _ hk2]
  refine ⟨?_, ?_, ?_⟩
  · simp [Scope.Raw, String.intercalate]
  · show (stamp env (stamp env sc "UpdatedAt") "UpdatedAt").SQLVars = _
    rw [(stamp_frame env _ _).2.1, (stamp_frame env _ _).2.1]
  · show (stamp env (stamp env sc "UpdatedAt") "UpdatedAt").db = _
    rw [(stamp_frame env _ _).1, (stamp_frame env _ _).1]

/-- C6, counterexample: on `scopeKeyOnly`, a context with no error whose record
has only its primary key, `insertCallBack` sets no error and makes an `Exec`
call, with empty column and placeholder lists. -/
theorem C6_insert_key_only_counterexample :
    scopeKeyOnly.HasError = false ∧ (∀ f ∈ scopeKeyOnly.Fields, f.IsPrimaryKey = true) ∧
    (insertCallBack envE drvE scopeKeyOnly []).map (fun r => r.1.HasError) = some false ∧
    (insertCallBack envE drvE scopeKeyOnly []).map (fun r => r.2) =
      some [IOCall.Exec "INSERT INTO users () VALUES ()" []] := by
  refine ⟨rfl, by decide, by decide, by decide⟩

/-- C6, amended: for every execution context with no pre-existing error and a
live (non-nil) SQL handle whose record has only primary-key fields,
`insertCallBack` returns, commits the statement
`INSERT INTO <table> () VALUES ()`, with empty column and placeholder lists and
no new bound parameter, and makes exactly one `Exec` call with it; the context
gets an error exactly when that call fails (the count is then unchanged), and
on success the count is the driver-reported one. -/
theorem C6_insert_key_only_executes (env : Collab) (drv : Driver) (sc : Scope) (tr : Trace)
    (he : sc.HasError = false) (hl : sc.db.db.live = true)
    (hk : ∀ f ∈ sc.Fields, f.IsPrimaryKey = true) :
    ∃ r, insertCallBack env drv sc tr = some r ∧
      r.1.SQL =
        "INSERT INTO " ++ env.QuotedTableName (stamp env (stamp env sc "UpdatedAt") "UpdatedAt") ++
          " (" ++ ") VALUES (" ++ ")" ∧
      r.2 = tr ++ [IOCall.Exec r.1.SQL sc.SQLVars] ∧
      (∀ n, drv.Exec tr r.1.SQL sc.SQLVars = Except.ok n →
        r.1.HasError = false ∧ r.1.db.RowsAffected = n) ∧
      (∀ e, drv.Exec tr r.1.SQL sc.SQLVars = Except.error e →
        r.1.HasError = true ∧ r.1.db.RowsAffected = sc.db.RowsAffected) := by
  obtain ⟨h1, h2, h3⟩ := insertStatement_key_only env sc hk
  have hl' : (insertStatement env sc).db.db.live = true := by rw [h3]; exact hl
  have hcb : insertCallBack env drv sc tr = some (execLive drv (insertStatement env sc) tr) := by
    unfold insertCallBack; simp [he, execAndCount_live drv _ tr hl']
  have hsql : (execLive drv (insertStatement env sc) tr).1.SQL = (insertStatement env sc).SQL :=
    (execLive_frame drv _ tr).1
  refine ⟨_, hcb, ?_, ?_, ?_, ?_⟩
  · rw [hsql]; exact h1
  · rw [hsql, execLive_trace, h2]
  · intro n hn
    rw [hsql, ← h2] at hn
    obtain ⟨a, b⟩ := execLive_ok drv _ tr n hn
    refine ⟨?_, a⟩
    unfold Scope.HasError at he ⊢
    rw [b, h3]; exact he
  · intro e hx
    rw [hsql, ← h2] at hx
    obtain ⟨a, b⟩ := execLive_error drv _ tr e hx
    exact ⟨b, by rw [a, h3]⟩

/-- Witness of the amended C6 on `scopeKeyOnly`. -/
theorem C6_insert_key_only_executes_witness :
    scopeKeyOnly.HasError = false ∧ scopeKeyOnly.db.db.live = true ∧
    (∀ f ∈ scopeKeyOnly.Fields, f.IsPrimaryKey = true) ∧
    ∃ r, insertCallBack envE drvE scopeKeyOnly [] = some r ∧
      r.1.SQL =
        "INSERT INTO " ++
          envE.QuotedTableName (stamp envE (stamp envE scopeKeyOnly "UpdatedAt") "UpdatedAt") ++
          " (" ++ ") VALUES (" ++ ")" ∧
      r.2 = [] ++ [IOCall.Exec r.1.SQL scopeKeyOnly.SQLVars] :=
  ⟨rfl, rfl, by decide,
   by
    obtain ⟨r, hr, h1, h2, _⟩ :=
      C6_insert_key_only_executes envE drvE scopeKeyOnly [] rfl rfl (by decide)
    exact ⟨r, hr, h1, h2⟩⟩

/-! ## C7 -/

theorem wrap64_succ (k : Int) (h0 : 0 ≤ k) (h1 : k + 1 < 2 ^ 63) : wrap64 (k + 1) = k + 1 := by
  unfold wrap64
  have e1 : (2 : Int) ^ 63 = 9223372036854775808 := by norm_num
  have e2 : (2 : Int) ^ 64 = 18446744073709551616 := by norm_num
  rw [e1] at h1 ⊢
  rw [e2]
  omega

theorem Err_frame (sc : Scope) (e : Option Err) :
    (sc.Err e).1.Value = sc.Value ∧ (sc.Err e).1.db.RowsAffected = sc.db.RowsAffected ∧
    (sc.Err e).1.SQL = sc.SQL ∧ (sc.Err e).1.SQLVars = sc.SQLVars ∧
    (sc.HasError = true → (sc.Err e).1.HasError = true) := by
  unfold Scope.Err; split
  · exact ⟨rfl, rfl, rfl, rfl, id⟩
  · exact ⟨rfl, rfl, rfl, rfl, fun _ => rfl⟩

theorem Err_some (sc : Scope) (x : Err) : (sc.Err (some x)).1.HasError = true := rfl

theorem queryLoop_cons_slice (env : Collab) (columns : List String) (isPtr : Bool) (zero : Record)
    (sc : Scope) (elems : List Record) (row : Row) (rest : List Row)
    (hv : sc.Value = Target.slice isPtr zero elems) :
    queryLoop env columns sc (row :: rest) =
      queryLoop env columns
        { (Scope.Err { sc with db := { sc.db with RowsAffected := wrap64 (sc.db.RowsAffected + 1) } }
            (env.scan columns row zero).2).1 with
          Value := Target.slice isPtr zero (elems ++ [(env.scan columns row zero).1]) } rest := by
  rw [queryLoop]
  simp only [hv]

/-- The loop over a collection destination: one element appended per row, in
order, and the count raised by one per row. -/
theorem queryLoop_slice (env : Collab) (columns : List String) (isPtr : Bool) (zero : Record)
    (rows : List Row) :
    ∀ (sc : Scope) (elems : List Record) (k : Int), sc.Value = Target.slice isPtr zero elems →
      sc.db.RowsAffected = k → 0 ≤ k → k + rows.length < 2 ^ 63 →
      (queryLoop env columns sc rows).Value =
        Target.slice isPtr zero (elems ++ rows.map (fun row => (env.scan columns row zero).1)) ∧
      (queryLoop env columns sc rows).db.RowsAffected = k + rows.length := by
  induction rows with
  | nil =>
    intro sc elems k hv hk _ _
    simp [queryLoop, hv, hk]
  | cons row rest ih =>
    intro sc elems k hv hk h0 h1
    have h1' : k + 1 + (rest.length : Int) < 2 ^ 63 := by
      simp only [List.length_cons, Nat.cast_add, Nat.cast_one] at h1
      omega
    have hw : wrap64 (k + 1) = k + 1 := wrap64_succ k h0 (by omega)
    rw [queryLoop_cons_slice env columns isPtr zero sc elems row rest hv]
    have key := ih
      { (Scope.Err { sc with db := { sc.db with RowsAffected := wrap64 (sc.db.RowsAffected + 1) } }
          (env.scan columns row zero).2).1 with
        Value := Target.slice isPtr zero (elems ++ [(env.scan columns row zero).1]) }
      (elems ++ [(env.scan columns row zero).1]) (k + 1) rfl
      (by
        show (Scope.Err _ _).1.db.RowsAffected = k + 1
        rw [(Err_frame _ _).2.1]
        show wrap64 (sc.db.RowsAffected + 1) = k + 1
        rw [hk, hw])
      (by omega) h1'
    obtain ⟨k1, k2⟩ := key
    refine ⟨?_, ?_⟩
    · rw [k1]; simp
    · rw [k2]; simp only [List.length_cons, Nat.cast_add, Nat.cast_one]; omega

/-- C7: for every collection destination with any prior contents `prior`, every
context with no pre-existing error, and every result set `rs` that the `Query`
call on the context's SQL handle returns for the rendered statement (fewer than
`2^63` rows, the range of the `int64` count), `queryCallBack` returns, and
afterwards the destination holds exactly one element per row iterated, in
iteration order, and none of `prior`; the affected-row count is the number of
rows; the context's error is set when the driver reports an iteration error;
and the only call made was that `Query`. -/
theorem C7_query_collection (env : Collab) (drv : Driver) (sc : Scope) (tr : Trace)
    (isPtr : Bool) (zero : Record) (prior : List Record) (rs : Rows)
    (he : sc.HasError = false) (hv : sc.Value = Target.slice isPtr zero prior)
    (hq : sqlQuery drv sc.db.db tr
      (Scope.prepareQuerySQL env { sc with Value := Target.slice isPtr zero [] }).SQL
      (Scope.prepareQuerySQL env { sc with Value := Target.slice isPtr zero [] }).SQLVars
        = some (Except.ok rs))
    (hn : rs.rows.length < 2 ^ 63) :
    ∃ r, queryCallBack env drv sc tr = some r ∧
      r.1.Value =
        Target.slice isPtr zero (rs.rows.map (fun row => (env.scan rs.columns row zero).1)) ∧
      (∃ elems, r.1.Value = Target.slice isPtr zero elems ∧ elems.length = rs.rows.length) ∧
      r.1.db.RowsAffected = rs.rows.length ∧
      (∀ e, rs.err = some e → r.1.HasError = true) ∧
      r.2 = tr ++ [IOCall.Query
        (Scope.prepareQuerySQL env { sc with Value := Target.slice isPtr zero [] }).SQL
        (Scope.prepareQuerySQL env { sc with Value := Target.slice isPtr zero [] }).SQLVars] := by
  have hne : (Scope.prepareQuerySQL env { sc with Value := Target.slice isPtr zero [] }).HasError
      = false := he
  have hcb : queryCallBack env drv sc tr =
      queryRun env drv { sc with Value := Target.slice isPtr zero [] } tr := by
    unfold queryCallBack; rw [hv]
  have hloop := queryLoop_slice env rs.columns isPtr zero rs.rows
    { Scope.prepareQuerySQL env { sc with Value := Target.slice isPtr zero [] } with
      db := { (Scope.prepareQuerySQL env { sc with Value := Target.slice isPtr zero [] }).db with
        RowsAffected := 0 } } [] 0 rfl rfl (Int.le_refl 0)
    (by have : ((rs.rows.length : Nat) : Int) < 2 ^ 63 := by exact_mod_cast hn
        omega)
  obtain ⟨l1, l2⟩ := hloop
  simp only [List.nil_append, zero_add] at l1 l2
  have hrun : queryRun env drv { sc with Value := Target.slice isPtr zero [] } tr =
      some (match rs.err with
        | some e => ((queryLoop env rs.columns
            { Scope.prepareQuerySQL env { sc with Value := Target.slice isPtr zero [] } with
              db := { (Scope.prepareQuerySQL env
                { sc with Value := Target.slice isPtr zero [] }).db with RowsAffected := 0 } }
            rs.rows).Err (some e)).1
        | none => queryLoop env rs.columns
            { Scope.prepareQuerySQL env { sc with Value := Target.slice isPtr zero [] } with
              db := { (Scope.prepareQuerySQL env
                { sc with Value := Target.slice isPtr zero [] }).db with RowsAffected := 0 } }
            rs.rows,
       tr ++ [IOCall.Query
        (Scope.prepareQuerySQL env { sc with Value := Target.slice isPtr zero [] }).SQL
        (Scope.prepareQuerySQL env { sc with Value := Target.slice isPtr zero [] }).SQLVars]) := by
    unfold queryRun
    simp only [hne, Bool.not_false, if_true]
    split
    · rename_i heq
      exact absurd (hq.symm.trans heq) (by simp)
    · rename_i e heq
      exact absurd (hq.symm.trans heq) (by simp)
    · rename_i rows heq
      have hrs : rs = rows := by
        have := hq.symm.trans heq
        simpa using this
      subst hrs
      rfl
  rw [hcb, hrun]
  refine ⟨_, rfl, ?_⟩
  cases herr : rs.err with
  | none =>
    refine ⟨l1, ⟨_, l1, List.length_map _ _⟩, l2, fun e he' => (by cases he'), rfl⟩
  | some e =>
    refine ⟨?_, ⟨rs.rows.map (fun row => (env.scan rs.columns row zero).1), ?_,
      List.length_map _ _⟩, ?_, fun _ _ => Err_some _ _, rfl⟩
    · show (Scope.Err _ _).1.Value = _
      rw [(Err_frame _ _).1, l1]
    · show (Scope.Err _ _).1.Value = _
      rw [(Err_frame _ _).1, l1]
    · show (Scope.Err _ _).1.db.RowsAffected = _
      rw [(Err_frame _ _).2.1, l2]

/-- Witness of C7 on `scopeColl`: one stale element before, the two rows of
`drvE` after, a count of 2 and the iteration error recorded. -/
theorem C7_query_collection_witness :
    scopeColl.HasError = false ∧
    scopeColl.Value = Target.slice false [fieldID] [[fieldID]] ∧
    ∃ r, queryCallBack envE drvE scopeColl [] = some r ∧
      r.1.Value =
        Target.slice false [fieldID]
          [[{ fieldID with Field := Any.int 1 }], [{ fieldID with Field := Any.int 2 }]] ∧
      r.1.db.RowsAffected = 2 ∧ r.1.HasError = true :=
  ⟨rfl, rfl,
   by
    obtain ⟨r, hr, h1, _, h3, h4, _⟩ :=
      C7_query_collection envE drvE scopeColl [] false [fieldID] [[fieldID]]
        ⟨["id"], [[Any.int 1], [Any.int 2]], some "bad row"⟩ rfl rfl rfl (by norm_num)
    exact ⟨r, hr, h1, h3, h4 "bad row" rfl⟩⟩

/-! ## C8 -/

/-- `NewScope` clones `s` and stores the value in the clone: the clone has an
affected-row count of 0 and the error, registry and handle of `s`. -/
theorem NewScope_spec (h : Heap) (s : Nat) (v : Target) (hs : h.Session s) :
    ∃ dn sn, DB.NewScope h s v =
        some ({ dbs := h.dbs ++ [dn], searches := h.searches ++ [sn], arrays := h.arrays },
          { db := dn, Search := sn, Value := v, SQL := "", SQLVars := [] },
          h.dbs.length, h.searches.length) ∧
      dn.RowsAffected = 0 ∧ dn.Value = v ∧
      ∀ d, h.dbs[s]? = some d → dn.Error = d.Error := by
  obtain ⟨P, _, hg, _⟩ := session_good hs
  obtain ⟨dn, sn, hc, _, _, hr, hd, _, _⟩ := clone_spec P h s hg
  refine ⟨{ dn with Value := v }, sn, ?_, hr, rfl, fun d hd' => (hd d hd').1⟩
  simp [DB.NewScope, hc, Heap.setDB]

/-- A terminal call whose processor list is empty. -/
theorem terminal_empty (regs : List Callback) (kind : Callback → List Processor) (h : Heap)
    (tr : Trace) (s : Nat) (v : Target) (d : DB) (k : Nat) (cb : Callback)
    (hs : h.Session s) (hd : h.dbs[s]? = some d) (hk : d.Callbacks = some k)
    (hr : regs[k]? = some cb) (he : kind cb = []) :
    ∃ h' c dc, DB.terminal regs kind h tr s v = some (h', tr, c) ∧ c ≠ s ∧
      h'.dbs[c]? = some dc ∧ dc.RowsAffected = 0 ∧ dc.Error = d.Error ∧
      h'.dbs[s]? = some d := by
  obtain ⟨dn, sn, hn, hz, hval, hE⟩ := NewScope_spec h s v hs
  have hlt : s < h.dbs.length := (List.getElem?_eq_some.1 hd).1
  refine ⟨{ dbs := h.dbs ++ [dn], searches := h.searches ++ [sn], arrays := h.arrays },
    h.dbs.length, dn, ?_, by omega, ?_, hz, hE d hd, ?_⟩
  · simp [DB.terminal, hn, hd, hk, hr, he, Scope.callCallbacks, Heap.setDB, Heap.setSearch]
    rw [← hval]
  · exact List.getElem?_concat_length _ _
  · show (h.dbs ++ [dn])[s]? = some d
    rw [List.getElem?_append_left hlt]; exact hd

/-- C8, counterexample: on `heapR`, whose Session 0 has an affected-row count
of 5 and a registry with no processor, `Find` makes no call on the SQL
interface and returns Session 1, whose count is 0, not 5. -/
theorem C8_terminal_count_counterexample :
    heapR.dbs[0]?.map (fun d => d.RowsAffected) = some 5 ∧
    (DB.Find [emptyRegistry] heapR [] 0 (Target.struct [fieldID])).map
      (fun r => (r.2.1, r.2.2, r.1.dbs[r.2.2]?.map (fun d => d.RowsAffected))) =
      some ([], 1, some 0) := by
  refine ⟨rfl, rfl⟩

/-- C8, amended: for every well-formed Session `s` with any affected-row count
and any operation kind whose processor list in its registry is empty, the
terminal call for that kind returns, invokes no method of the SQL interface
(the trace is unchanged), and returns a Session distinct from `s` whose
affected-row count is 0, the zero value `clone` leaves, and whose error is that
of `s`; `s` itself, its count included, is unchanged. -/
theorem C8_terminal_empty_registry (regs : List Callback) (h : Heap) (tr : Trace) (s : Nat)
    (v : Target) (d : DB) (k : Nat) (cb : Callback)
    (hs : h.Session s) (hd : h.dbs[s]? = some d) (hk : d.Callbacks = some k)
    (hr : regs[k]? = some cb) :
    (cb.Queries = [] → ∃ h' c dc, DB.Find regs h tr s v = some (h', tr, c) ∧ c ≠ s ∧
      h'.dbs[c]? = some dc ∧ dc.RowsAffected = 0 ∧ dc.Error = d.Error ∧ h'.dbs[s]? = some d) ∧
    (cb.Creates = [] → ∃ h' c dc, DB.Insert regs h tr s v = some (h', tr, c) ∧ c ≠ s ∧
      h'.dbs[c]? = some dc ∧ dc.RowsAffected = 0 ∧ dc.Error = d.Error ∧ h'.dbs[s]? = some d) ∧
    (cb.Updates = [] → ∃ h' c dc, DB.Update regs h tr s v = some (h', tr, c) ∧ c ≠ s ∧
      h'.dbs[c]? = some dc ∧ dc.RowsAffected = 0 ∧ dc.Error = d.Error ∧ h'.dbs[s]? = some d) ∧
    (cb.Deletes = [] → ∃ h' c dc, DB.Delete regs h tr s = some (h', tr, c) ∧ c ≠ s ∧
      h'.dbs[c]? = some dc ∧ dc.RowsAffected = 0 ∧ dc.Error = d.Error ∧ h'.dbs[s]? = some d) :=
  ⟨fun he => terminal_empty regs (fun cb => cb.Queries) h tr s v d k cb hs hd hk hr he,
   fun he => terminal_empty regs (fun cb => cb.Creates) h tr s v d k cb hs hd hk hr he,
   fun he => terminal_empty regs (fun cb => cb.Updates) h tr s v d k cb hs hd hk hr he,
   fun he => terminal_empty regs (fun cb => cb.Deletes) h tr s Target.nil d k cb hs hd hk hr he⟩

/-- Witness of the amended C8 on `heapR` and the empty registry. -/
theorem C8_terminal_empty_registry_witness :
    heapR.Session 0 ∧
    ∃ h' c dc, DB.Find [emptyRegistry] heapR [] 0 (Target.struct [fieldID]) = some (h', [], c) ∧
      c ≠ 0 ∧ h'.dbs[c]? = some dc ∧ dc.RowsAffected = 0 ∧ dc.Error = some "earlier" ∧
      h'.dbs[0]? = heapR.dbs[0]? :=
  have hs : heapR.Session 0 := ⟨_, rfl, fun q hq => by cases hq⟩
  ⟨hs, (C8_terminal_empty_registry [emptyRegistry] heapR [] 0 (Target.struct [fieldID]) _ 0
    emptyRegistry hs rfl rfl rfl).1 rfl⟩

/-! ## C10 -/

/-- C10: `AddError(e)` returns `e` and leaves the heap, hence every field of
every Session, unchanged.  Consequently, on a Session whose handle is a
transaction, `Commit` and `Rollback` call the driver and return the same
Session in the same heap whatever the driver answers, so its `Error` is the one
it had; and `ScanRows` on a row set whose column read fails with `e` returns
the `Error` the Session had before, not `e`. -/
theorem C10_AddError_records_nothing (drv : Driver) (h : Heap) (tr : Trace) (s : Nat) (d : DB)
    (hs : h.Session s) (hd : h.dbs[s]? = some d) :
    (∀ e, DB.AddError h s e = (h, e)) ∧
    (∀ t, d.db = SQLHandle.sqlTx (some t) →
      DB.Commit drv h tr s = some (h, tr ++ [IOCall.Commit], s) ∧
      DB.Rollback drv h tr s = some (h, tr ++ [IOCall.Rollback], s)) ∧
    (∀ e result, ∃ h', DB.ScanRows h s (some e) result = some (h', d.Error) ∧
      h'.dbs[s]? = some d) := by
  refine ⟨fun _ => rfl, fun t ht => ?_, fun e result => ?_⟩
  · simp [DB.Commit, DB.Rollback, hd, ht, DB.AddError]
  · obtain ⟨dn, sn, hn, _, _, hE⟩ := NewScope_spec h s result hs
    have hlt : s < h.dbs.length := (List.getElem?_eq_some.1 hd).1
    refine ⟨{ dbs := h.dbs ++ [dn], searches := h.searches ++ [sn], arrays := h.arrays }, ?_, ?_⟩
    · simp [DB.ScanRows, hn, DB.AddError, hE d hd]
    · show (h.dbs ++ [dn])[s]? = some d
      rw [List.getElem?_append_left hlt]; exact hd

/-- Witness of C10 on `heapR`, whose Session holds a transaction and the error
`"earlier"`, with the driver `drvE`, whose `Commit` and `Rollback` fail. -/
theorem C10_AddError_records_nothing_witness :
    heapR.Session 0 ∧ drvE.Commit [] = some "commit failed" ∧
    DB.Commit drvE heapR [] 0 = some (heapR, [IOCall.Commit], 0) ∧
    DB.Rollback drvE heapR [] 0 = some (heapR, [IOCall.Rollback], 0) ∧
    ∃ h', DB.ScanRows heapR 0 (some "no columns") Target.nil = some (h', some "earlier") ∧
      h'.dbs[0]? = heapR.dbs[0]? :=
  have hs : heapR.Session 0 := ⟨_, rfl, fun q hq => by cases hq⟩
  ⟨hs, rfl,
   ((C10_AddError_records_nothing drvE heapR [] 0 _ hs rfl).2.1 0 rfl).1,
   ((C10_AddError_records_nothing drvE heapR [] 0 _ hs rfl).2.1 0 rfl).2,
   (C10_AddError_records_nothing drvE heapR [] 0 _ hs rfl).2.2 "no columns" Target.nil⟩

end Zorm
